import Mathlib

/-!
Verification development for the egress-gateway reconciliation engine
(package `egressgateway` of the cilium repository).

The Go source is shallowly embedded:
  * Go maps become association lists; Go map iteration becomes iteration in
    list order (the theorems hold for every order, since the lists are
    arbitrary).
  * `*PolicyConfig` pointer aliasing (the per-source-IP index stores pointers
    into `policyConfigs`, and `regenerateGatewayConfig` mutates through them)
    is modelled by storing policy ids in the index and resolving them through
    `policyConfigs` at every use.
  * IPv4 addresses are natural numbers; `net.IP.Equal` and `String()`-keying
    coincide with equality of the numbers (IPv6 is out of scope).
  * the BPF policy map and the host rule/route tables are explicit state
    threaded through the reconciler, and every write is also recorded in an
    operation trace (`MapOp` / `RouteOp`); in this model writes always
    succeed.
  * external collaborators (identity resolver, endpoint-metadata
    construction) are oracle function parameters returning `Option`.
  * a Go nil-pointer dereference is modelled by the value `none` of an
    `Option` result (`addEndpoint`).
-/

/-- IPv4 address, modelled as a natural number. -/
abbrev IP4 := Nat

/-- `*net.IPNet`: a CIDR. `Match`/`String` equality on CIDRs compares both
the address and the mask exactly, which is structural equality here. -/
structure IPNet where
  ip : IP4
  mask : Nat
deriving DecidableEq, Repr

/-- Key of the BPF egress policy map: `(sourceIP, destCIDR)`.
Modelled from the spec: `egressmap.EgressPolicyKey4`; key match compares
source IP and destination CIDR exactly (including mask). -/
structure EgressPolicyKey4 where
  sourceIP : IP4
  dstCIDR : IPNet
deriving DecidableEq, Repr

/-- Value of the BPF egress policy map: `(egressIP, gatewayIP)`.
Modelled from the spec: `egressmap.EgressPolicyVal4`; value match compares
both IPs. -/
structure EgressPolicyVal4 where
  egressIP : IP4
  gatewayIP : IP4
deriving DecidableEq, Repr

/-- `NewEgressPolicyKey4(ip, cidr.IP, cidr.Mask)`. -/
def NewEgressPolicyKey4 (ip : IP4) (cidr : IPNet) : EgressPolicyKey4 :=
  ⟨ip, cidr⟩

/-- `EgressPolicyKey4.Match`: exact comparison of source IP and CIDR. -/
def EgressPolicyKey4.Match (k : EgressPolicyKey4) (ip : IP4) (cidr : IPNet) : Bool :=
  k.sourceIP = ip && k.dstCIDR = cidr

/-- `EgressPolicyVal4.Match`: comparison of egress IP and gateway IP. -/
def EgressPolicyVal4.Match (v : EgressPolicyVal4) (egressIP gatewayIP : IP4) : Bool :=
  v.egressIP = egressIP && v.gatewayIP = gatewayIP

/-- `GatewayNotFoundIPv4 = 0.0.0.0`. -/
def GatewayNotFoundIPv4 : IP4 := 0

/-- `ExcludedCIDRIPv4 = 0.0.0.1`: sentinel gateway IP marking an excluded
CIDR entry. -/
def ExcludedCIDRIPv4 : IP4 := 1

/-- The BPF policy map content: an association list keyed by
`EgressPolicyKey4` (a Go/BPF map has at most one entry per key; the
theorems carry that as a `Nodup` hypothesis on the keys). -/
abbrev PolicyMap := List (EgressPolicyKey4 × EgressPolicyVal4)

/-- One write issued to the policy map. -/
inductive MapOp where
  | update (k : EgressPolicyKey4) (v : EgressPolicyVal4)
  | delete (k : EgressPolicyKey4)
deriving DecidableEq, Repr

def MapOp.isUpdate : MapOp → Bool
  | .update _ _ => true
  | .delete _ => false

def MapOp.isDelete : MapOp → Bool
  | .update _ _ => false
  | .delete _ => true

/-- Lookup in the policy map (Go/BPF map lookup). -/
def pmLookup : PolicyMap → EgressPolicyKey4 → Option EgressPolicyVal4
  | [], _ => none
  | e :: t, k => if e.1 = k then some e.2 else pmLookup t k

/-- `PolicyMap.Update`: upsert. -/
def pmUpsert : PolicyMap → EgressPolicyKey4 → EgressPolicyVal4 → PolicyMap
  | [], k, v => [(k, v)]
  | e :: t, k, v => if e.1 = k then (k, v) :: t else e :: pmUpsert t k v

/-- `PolicyMap.Delete`: remove the entry with the given key. -/
def pmDelete : PolicyMap → EgressPolicyKey4 → PolicyMap
  | [], _ => []
  | e :: t, k => if e.1 = k then pmDelete t k else e :: pmDelete t k

def pmKeys (pm : PolicyMap) : List EgressPolicyKey4 := pm.map (·.1)

/-- `types.NamespacedName`: name + namespace, used for both endpoint ids and
policy ids. -/
structure K8sName where
  name : String
  nspace : String
deriving DecidableEq, Repr

/-- `nodeTypes.Node`: what gateway selection consumes — the name (sort key)
and addresses. -/
structure Node where
  name : String
  addrs : List IP4
deriving DecidableEq, Repr

/-- `endpointMetadata`: id, IPv4 addresses, labels. -/
structure EndpointMetadata where
  id : K8sName
  ips : List IP4
  labels : List String
deriving DecidableEq, Repr

/-- `k8sTypes.CiliumEndpoint`: what `addEndpoint` reads from the pending
event — name, namespace and the numeric security identity. -/
structure Endpoint where
  name : String
  nspace : String
  identityID : Nat
deriving DecidableEq, Repr

/-- Event bit constants (`eventType`). -/
def eventNone : Nat := 1
def eventK8sSyncDone : Nat := 2
def eventAddPolicy : Nat := 4
def eventDeletePolicy : Nat := 8
def eventUpdateNode : Nat := 16
def eventDeleteNode : Nat := 32
def eventUpdateEndpoint : Nat := 64
def eventDeleteEndpoint : Nat := 128

/-- `endpointEvent`: pending endpoint event. `OnDeleteEndpoint` stores a nil
endpoint pointer, modelled by `none`. -/
structure EndpointEvent where
  eventType : Nat
  endpoint : Option Endpoint
deriving DecidableEq, Repr

/-- `gatewayConfig`: resolved per-policy routing intent. -/
structure GatewayConfig where
  egressIP : IPNet
  ifaceIndex : Nat
  gatewayIP : IP4
  localNodeConfiguredAsGateway : Bool
deriving DecidableEq, Repr

/-- `PolicyConfig`.

`endpointSelector` is the opaque selector predicate the spec describes
(`updateMatchedEndpointIDs` re-evaluates it against `epDataStore`).
`destinationMinusExcluded` — modelled from the spec: the derived effective
destination CIDR set (`destinationMinusExcludedCIDRs()`, destinations minus
excluded CIDRs); the CIDR subtraction algorithm is outside this excerpt, so
the result is carried as data. `regenGateway` — modelled from the spec:
`regenerateGatewayConfig` recomputes the gateway config from the sorted
`nodes` slice and the local node identity; the selection algorithm is
outside this excerpt, so it is an opaque per-policy function of the nodes
slice. -/
structure PolicyConfig where
  id : K8sName
  endpointSelector : EndpointMetadata → Bool
  dstCIDRs : List IPNet
  excludedCIDRs : List IPNet
  destinationMinusExcluded : List IPNet
  matchedEndpoints : List EndpointMetadata
  gatewayConfig : GatewayConfig
  regenGateway : List Node → GatewayConfig

/-- An IP rule, as listed/installed on the host (`netlink.Rule`): source IP,
destination CIDR, routing table index. The host state tracks exactly the
egress-gateway-tagged rules (`listEgressIpRules`). -/
structure IpRule where
  src : IP4
  dst : IPNet
  table : Nat
deriving DecidableEq, Repr

/-- An IPv4 route on the host (`netlink.Route`): link index and table. -/
structure IpRoute where
  linkIndex : Nat
  table : Nat
deriving DecidableEq, Repr

/-- Host route-table state: egress-gateway IP rules and all IPv4 routes. -/
structure HostState where
  rules : List IpRule
  routes : List IpRoute
deriving DecidableEq, Repr

/-- One netlink operation issued on the host route tables. -/
inductive RouteOp where
  | addRule (r : IpRule)
  | delRule (r : IpRule)
  | addRoute (egressIP : IPNet) (ifaceIndex : Nat)
  | delRoute (r : IpRoute)
deriving DecidableEq, Repr

def RouteOp.isAdd : RouteOp → Bool
  | .addRule _ => true
  | .addRoute _ _ => true
  | .delRule _ => false
  | .delRoute _ => false

/-- `egressGatewayRoutingTableIdx`: per-interface routing table index.
Modelled from the spec: a stable one-to-one function of the interface
index. -/
def egressGatewayRoutingTableIdx (ifaceIndex : Nat) : Nat := 1000 + ifaceIndex

/-- The `Manager` caches. The per-source-IP index stores policy ids (Go
stores `*PolicyConfig` pointers into `policyConfigs`; ids model that
aliasing). `cacheStatus` is the result of `cacheStatus.Synchronized()`. -/
structure Manager where
  cacheStatus : Bool
  nodeDataStore : List Node
  nodes : List Node
  policyConfigs : List PolicyConfig
  policyConfigsBySourceIP : List (IP4 × List K8sName)
  epDataStore : List EndpointMetadata
  pendingEndpointEvents : List (K8sName × EndpointEvent)
  queuedEndpointIDs : List K8sName
  installRoutes : Bool
  eventsBitmap : Nat

/-- `eventBitmapIsSet`. -/
def eventBitmapIsSet (m : Manager) (events : List Nat) : Bool :=
  events.any fun e => m.eventsBitmap &&& e != 0

/-- `updateMatchedEndpointIDs` — modelled from the spec: re-evaluate the
policy's selectors against the endpoint store. -/
def PolicyConfig.updateMatchedEndpointIDs (p : PolicyConfig)
    (eps : List EndpointMetadata) : PolicyConfig :=
  { p with matchedEndpoints := eps.filter p.endpointSelector }

/-- `updatePoliciesMatchedEndpointIDs`. -/
def updatePoliciesMatchedEndpointIDs (m : Manager) : Manager :=
  { m with policyConfigs :=
      m.policyConfigs.map (fun p => p.updateMatchedEndpointIDs m.epDataStore) }

/-- Index lookup `policyConfigsBySourceIP[ip]` (missing key = nil slice). -/
def lookupIdx : List (IP4 × List K8sName) → IP4 → List K8sName
  | [], _ => []
  | e :: t, ip => if e.1 = ip then e.2 else lookupIdx t ip

/-- `policyConfigsBySourceIP[ip] = append(policyConfigsBySourceIP[ip], policy)`. -/
def idxAppend : List (IP4 × List K8sName) → IP4 → K8sName → List (IP4 × List K8sName)
  | [], ip, pid => [(ip, [pid])]
  | e :: t, ip, pid =>
    if e.1 = ip then (e.1, e.2 ++ [pid]) :: t else e :: idxAppend t ip pid

def idxAddIPs : List (IP4 × List K8sName) → K8sName → List IP4 → List (IP4 × List K8sName)
  | idx, _, [] => idx
  | idx, pid, ip :: ips => idxAddIPs (idxAppend idx ip pid) pid ips

def idxAddEndpoints : List (IP4 × List K8sName) → K8sName → List EndpointMetadata →
    List (IP4 × List K8sName)
  | idx, _, [] => idx
  | idx, pid, ep :: eps => idxAddEndpoints (idxAddIPs idx pid ep.ips) pid eps

def buildIdx : List (IP4 × List K8sName) → List PolicyConfig → List (IP4 × List K8sName)
  | idx, [] => idx
  | idx, p :: ps => buildIdx (idxAddEndpoints idx p.id p.matchedEndpoints) ps

/-- `updatePoliciesBySourceIP`: rebuild the per-source-IP index from scratch
from `policyConfigs` (for each policy, each matched endpoint, each of its
IPs, append the policy to the entry of that IP). -/
def updatePoliciesBySourceIP (m : Manager) : Manager :=
  { m with policyConfigsBySourceIP := buildIdx [] m.policyConfigs }

/-- Resolve a stored policy id through `policyConfigs` (dereferencing the
Go `*PolicyConfig`). -/
def getPolicy (m : Manager) (pid : K8sName) : Option PolicyConfig :=
  m.policyConfigs.find? fun p => p.id = pid

/-- The policies the index associates with a source IP, dereferenced. -/
def policiesForSourceIP (m : Manager) (ip : IP4) : List PolicyConfig :=
  (lookupIdx m.policyConfigsBySourceIP ip).filterMap (getPolicy m)

/-- `policyMatches`: true iff some policy reachable through
`policyConfigsBySourceIP[sourceIP]` has an endpoint/CIDR combination
(destinations with `excluded = false` first, then excluded CIDRs with
`excluded = true`) on which the callback returns true; endpoint IPs not
equal to the source IP are skipped. -/
def policyMatches (m : Manager) (sourceIP : IP4)
    (f : IP4 → IPNet → Bool → GatewayConfig → Bool) : Bool :=
  (lookupIdx m.policyConfigsBySourceIP sourceIP).any fun pid =>
    match getPolicy m pid with
    | none => false
    | some policy =>
      policy.matchedEndpoints.any fun ep =>
        ep.ips.any fun endpointIP =>
          endpointIP = sourceIP &&
            (policy.dstCIDRs.any (fun dstCIDR => f endpointIP dstCIDR false policy.gatewayConfig) ||
             policy.excludedCIDRs.any (fun excludedCIDR => f endpointIP excludedCIDR true policy.gatewayConfig))

/-- `policyMatchesMinusExcludedCIDRs`: like `policyMatches` but iterating the
effective destinations (`destinationMinusExcludedCIDRs`). -/
def policyMatchesMinusExcludedCIDRs (m : Manager) (sourceIP : IP4)
    (f : IP4 → IPNet → GatewayConfig → Bool) : Bool :=
  (lookupIdx m.policyConfigsBySourceIP sourceIP).any fun pid =>
    match getPolicy m pid with
    | none => false
    | some policy =>
      policy.matchedEndpoints.any fun ep =>
        ep.ips.any fun endpointIP =>
          endpointIP = sourceIP &&
            policy.destinationMinusExcluded.any fun cidr => f endpointIP cidr policy.gatewayConfig

/-- `regenerateGatewayConfigs`: recompute each policy's gateway config from
the current nodes slice. -/
def regenerateGatewayConfigs (m : Manager) : Manager :=
  { m with policyConfigs :=
      m.policyConfigs.map fun p => { p with gatewayConfig := p.regenGateway m.nodes } }

/-- `forEachEndpointAndCIDR` — modelled from the spec: for each matched
endpoint, each of its IPs, the destination CIDRs with `excluded = false`
then the excluded CIDRs with `excluded = true`. -/
def forEachEndpointAndCIDR (p : PolicyConfig) : List (IP4 × IPNet × Bool) :=
  p.matchedEndpoints.flatMap fun ep =>
    ep.ips.flatMap fun ip =>
      p.dstCIDRs.map (fun c => (ip, c, false)) ++ p.excludedCIDRs.map (fun c => (ip, c, true))

/-- `forEachEndpointAndDestination` — modelled from the spec: for each
matched endpoint, each of its IPs, each effective destination CIDR. -/
def forEachEndpointAndDestination (p : PolicyConfig) : List (IP4 × IPNet) :=
  p.matchedEndpoints.flatMap fun ep =>
    ep.ips.flatMap fun ip =>
      p.destinationMinusExcluded.map fun c => (ip, c)

/-- The policy-map entry `addEgressRule` would write for one
`(endpointIP, dstCIDR, excludedCIDR)` tuple of a policy with gateway config
`gwc`: the gateway IP is replaced by `ExcludedCIDRIPv4` on excluded CIDRs. -/
def desiredEntry (gwc : GatewayConfig) (t : IP4 × IPNet × Bool) :
    EgressPolicyKey4 × EgressPolicyVal4 :=
  (NewEgressPolicyKey4 t.1 t.2.1,
   ⟨gwc.egressIP.ip, if t.2.2 then ExcludedCIDRIPv4 else gwc.gatewayIP⟩)

/-- All `(key, value)` pairs `addMissingEgressRules` wants present, in the
order the nested loops visit them. -/
def desiredList (m : Manager) : List (EgressPolicyKey4 × EgressPolicyVal4) :=
  m.policyConfigs.flatMap fun p =>
    (forEachEndpointAndCIDR p).map (desiredEntry p.gatewayConfig)

/-- The add-missing pass: for each desired `(k, v)`, skip when the snapshot
taken at the start of the pass already holds a matching value, otherwise
`Update(k, v)` (the snapshot is not refreshed by the writes). -/
def applyAdds (snap : PolicyMap) :
    List (EgressPolicyKey4 × EgressPolicyVal4) → PolicyMap → PolicyMap × List MapOp
  | [], cur => (cur, [])
  | (k, v) :: rest, cur =>
    if pmLookup snap k = some v then
      applyAdds snap rest cur
    else
      let r := applyAdds snap rest (pmUpsert cur k v)
      (r.1, MapOp.update k v :: r.2)

/-- `addMissingEgressRules`: snapshot the map, then add every missing
desired entry. -/
def addMissingEgressRules (m : Manager) (pm : PolicyMap) : PolicyMap × List MapOp :=
  applyAdds pm (desiredList m) pm

/-- The probe `removeUnusedEgressRules` runs for one snapshot entry:
`policyMatches` over the entry's source IP, testing
`policyKey.Match && policyVal.Match` with the excluded-CIDR sentinel
substitution. -/
def entryStillNeeded (m : Manager) (k : EgressPolicyKey4) (v : EgressPolicyVal4) : Bool :=
  policyMatches m k.sourceIP fun endpointIP dstCIDR excludedCIDR gwc =>
    k.Match endpointIP dstCIDR &&
      v.Match gwc.egressIP.ip (if excludedCIDR then ExcludedCIDRIPv4 else gwc.gatewayIP)

/-- The remove-unused pass: for each snapshot entry with no matching policy,
`Delete(k)`. -/
def applyRemoves (m : Manager) :
    List (EgressPolicyKey4 × EgressPolicyVal4) → PolicyMap → PolicyMap × List MapOp
  | [], cur => (cur, [])
  | (k, v) :: rest, cur =>
    if entryStillNeeded m k v then
      applyRemoves m rest cur
    else
      let r := applyRemoves m rest (pmDelete cur k)
      (r.1, MapOp.delete k :: r.2)

/-- `removeUnusedEgressRules`: snapshot the map, then delete every entry not
backed by a policy. -/
def removeUnusedEgressRules (m : Manager) (pm : PolicyMap) : PolicyMap × List MapOp :=
  applyRemoves m pm pm

/-- `egressIPRuleMatches` — modelled from the spec: the rule matches the
`(endpointIP, dstCIDR)` pair. -/
def egressIPRuleMatches (r : IpRule) (ip : IP4) (cidr : IPNet) : Bool :=
  r.src = ip && r.dst = cidr

/-- `newEgressIpRule` — modelled from the spec. -/
def newEgressIpRule (ip : IP4) (cidr : IPNet) (tableIdx : Nat) : IpRule :=
  ⟨ip, cidr, tableIdx⟩

/-- Inner loop of `addMissingIpRulesAndRoutes`: add an IP rule for every
pair without a matching rule in the per-policy rule listing taken before the
loop. -/
def addRulesLoop (rules0 : List IpRule) (tableIdx : Nat) :
    List (IP4 × IPNet) → HostState → HostState × List RouteOp
  | [], h => (h, [])
  | (ip, cidr) :: rest, h =>
    if rules0.any (fun r => egressIPRuleMatches r ip cidr) then
      addRulesLoop rules0 tableIdx rest h
    else
      let newRule := newEgressIpRule ip cidr tableIdx
      let r := addRulesLoop rules0 tableIdx rest { h with rules := h.rules ++ [newRule] }
      (r.1, RouteOp.addRule newRule :: r.2)

/-- `addEgressIpRoutes` — modelled from the spec: install the egress route
for `(egressIP, ifaceIndex)` in the per-interface table (no-op when already
present). -/
def addEgressIpRoutes (h : HostState) (egressIP : IPNet) (ifaceIndex : Nat) :
    HostState × List RouteOp :=
  let rt : IpRoute := ⟨ifaceIndex, egressGatewayRoutingTableIdx ifaceIndex⟩
  if h.routes.any (· = rt) then (h, [])
  else ({ h with routes := h.routes ++ [rt] }, [RouteOp.addRoute egressIP ifaceIndex])

def addMissingIpRulesAndRoutesGo : List PolicyConfig → HostState → HostState × List RouteOp
  | [], h => (h, [])
  | p :: rest, h =>
    let gwc := p.gatewayConfig
    if !gwc.localNodeConfiguredAsGateway || p.matchedEndpoints.isEmpty then
      addMissingIpRulesAndRoutesGo rest h
    else
      let tableIdx := egressGatewayRoutingTableIdx gwc.ifaceIndex
      let rules0 := h.rules.filter fun r => r.table = tableIdx
      let r1 := addRulesLoop rules0 tableIdx (forEachEndpointAndDestination p) h
      let r2 := addEgressIpRoutes r1.1 gwc.egressIP gwc.ifaceIndex
      let r3 := addMissingIpRulesAndRoutesGo rest r2.1
      (r3.1, r1.2 ++ r2.2 ++ r3.2)

/-- `addMissingIpRulesAndRoutes`: nothing at all when `installRoutes` is
disabled; otherwise, per policy with the local node configured as gateway
and at least one matched endpoint, add the missing IP rules and the egress
routes. In this model writes succeed, so `shouldRetry` is always false (the
`isRetry` flag only changes logging in the source). -/
def addMissingIpRulesAndRoutes (m : Manager) (h : HostState) (_isRetry : Bool) :
    HostState × List RouteOp × Bool :=
  if !m.installRoutes then (h, [], false)
  else
    let r := addMissingIpRulesAndRoutesGo m.policyConfigs h
    (r.1, r.2, false)

/-- The per-rule probe of `removeUnusedIpRulesAndRoutes`: false outright
when `installRoutes` is disabled or the local node is not the gateway,
otherwise compare the rule's destination with the effective destination
CIDR (the source IP needs no comparison: only policies indexed under the
rule's source IP are visited). -/
def ruleStillUsed (m : Manager) (r : IpRule) : Bool :=
  policyMatchesMinusExcludedCIDRs m r.src fun _endpointIP dstCIDR gwc =>
    m.installRoutes && gwc.localNodeConfiguredAsGateway && (r.dst = dstCIDR)

def eraseRule : List IpRule → IpRule → List IpRule
  | [], _ => []
  | x :: t, r => if x = r then t else x :: eraseRule t r

def eraseRoute : List IpRoute → IpRoute → List IpRoute
  | [], _ => []
  | x :: t, r => if x = r then t else x :: eraseRoute t r

def removeRulesLoop (m : Manager) : List IpRule → HostState → HostState × List RouteOp
  | [], h => (h, [])
  | r :: rest, h =>
    if ruleStillUsed m r then
      removeRulesLoop m rest h
    else
      let res := removeRulesLoop m rest { h with rules := eraseRule h.rules r }
      (res.1, RouteOp.delRule r :: res.2)

/-- Interfaces actively used by egress gateway: policies with at least one
matched endpoint and the local node configured as gateway. -/
def activeEgressGwIfaceIndexes (m : Manager) : List Nat :=
  (m.policyConfigs.filter fun p =>
    !p.matchedEndpoints.isEmpty && p.gatewayConfig.localNodeConfiguredAsGateway).map
    (·.gatewayConfig.ifaceIndex)

def removeRoutesLoop (active : List Nat) : List IpRoute → HostState → HostState × List RouteOp
  | [], h => (h, [])
  | rt :: rest, h =>
    if rt.table != egressGatewayRoutingTableIdx rt.linkIndex then
      removeRoutesLoop active rest h
    else if active.any (· = rt.linkIndex) then
      removeRoutesLoop active rest h
    else
      let res := removeRoutesLoop active rest { h with routes := eraseRoute h.routes rt }
      (res.1, RouteOp.delRoute rt :: res.2)

/-- `removeUnusedIpRulesAndRoutes`: delete every listed egress IP rule no
policy still wants, then delete every route sitting in a per-interface
egress-gateway table whose interface is no longer active. -/
def removeUnusedIpRulesAndRoutes (m : Manager) (h : HostState) : HostState × List RouteOp :=
  let r1 := removeRulesLoop m h.rules h
  let active := activeEgressGwIfaceIndexes m
  let r2 := removeRoutesLoop active r1.1.routes r1.1
  (r2.1, r1.2 ++ r2.2)

/-- Step 1 of `reconcileLocked`: conditional index refresh driven by the
events bitmap. -/
def reconcileIndexUpdate (m : Manager) : Manager :=
  let m1 :=
    if eventBitmapIsSet m [eventUpdateEndpoint, eventDeleteEndpoint] then
      updatePoliciesBySourceIP (updatePoliciesMatchedEndpointIDs m)
    else m
  let m2 :=
    if eventBitmapIsSet m1 [eventAddPolicy, eventDeletePolicy] then
      updatePoliciesBySourceIP m1
    else m1
  if eventBitmapIsSet m2 [eventK8sSyncDone] then
    updatePoliciesBySourceIP (updatePoliciesMatchedEndpointIDs m2)
  else m2

/-- Steps 1–2 of `reconcileLocked`: index refresh then gateway-config
regeneration. -/
def reconcileManagerStage (m : Manager) : Manager :=
  regenerateGatewayConfigs (reconcileIndexUpdate m)

structure ReconcileResult where
  manager : Manager
  policyMap : PolicyMap
  host : HostState
  mapOps : List MapOp
  routeOps : List RouteOp

/-- `reconcileLocked`: return immediately unless the cluster sync is done;
otherwise refresh indices per the events bitmap, regenerate gateway
configs, run the ip-rule/route add pass, the ip-rule/route remove pass, the
(would-be) retry add pass, then the policy-map add-missing pass followed by
the remove-unused pass, and finally clear the events bitmap. -/
def reconcileLocked (m : Manager) (pm : PolicyMap) (host : HostState) : ReconcileResult :=
  if !m.cacheStatus then ⟨m, pm, host, [], []⟩
  else
    let m2 := reconcileManagerStage m
    let a1 := addMissingIpRulesAndRoutes m2 host false
    let r1 := removeUnusedIpRulesAndRoutes m2 a1.1
    let a2 := if a1.2.2 then addMissingIpRulesAndRoutes m2 r1.1 true else (r1.1, [], false)
    let add := addMissingEgressRules m2 pm
    let rem := removeUnusedEgressRules m2 add.1
    ⟨{ m2 with eventsBitmap := 0 }, rem.1, a2.1, add.2 ++ rem.2, a1.2.1 ++ r1.2 ++ a2.2.1⟩

/-! ### Node event handlers -/

def nodeLE (a b : Node) : Prop := a.name ≤ b.name

instance : DecidableRel nodeLE := fun a b => inferInstanceAs (Decidable (a.name ≤ b.name))

instance : IsTotal Node nodeLE := ⟨fun a b => le_total a.name b.name⟩

instance : IsTrans Node nodeLE := ⟨fun _ _ _ h h2 => le_trans h h2⟩

/-- Rebuild `nodes` from `nodeDataStore` sorted ascending by name
(`sort.Slice` with a strict name comparison; names are unique, so the
sorted slice is unique and any correct sort realizes it). -/
def sortNodes (l : List Node) : List Node := l.insertionSort nodeLE

/-- Go map store `nodeDataStore[node.Name] = node`. -/
def nodeUpsert (l : List Node) (n : Node) : List Node :=
  if l.any (fun x => x.name = n.name) then
    l.map fun x => if x.name = n.name then n else x
  else l ++ [n]

/-- Go map delete `delete(nodeDataStore, node.Name)`. -/
def nodeErase (l : List Node) (name : String) : List Node :=
  l.filter fun x => !(x.name = name)

/-- `onChangeNodeLocked`: rebuild the sorted `nodes` slice, set the event
bit, fire the trigger (the returned boolean). -/
def onChangeNodeLocked (m : Manager) (e : Nat) : Manager × Bool :=
  ({ m with nodes := sortNodes m.nodeDataStore,
            eventsBitmap := m.eventsBitmap ||| e }, true)

/-- `OnUpdateNode`. -/
def OnUpdateNode (m : Manager) (n : Node) : Manager × Bool :=
  onChangeNodeLocked { m with nodeDataStore := nodeUpsert m.nodeDataStore n } eventUpdateNode

/-- `OnDeleteNode`. -/
def OnDeleteNode (m : Manager) (n : Node) : Manager × Bool :=
  onChangeNodeLocked { m with nodeDataStore := nodeErase m.nodeDataStore n.name } eventDeleteNode

/-! ### Policy delete handler -/

/-- `OnDeleteEgressPolicy`: unknown id — warn and return without firing the
trigger; otherwise delete the config, set the bit, fire the trigger. The
returned boolean is whether `TriggerWithReason` was called. -/
def OnDeleteEgressPolicy (m : Manager) (configID : K8sName) : Manager × Bool :=
  match m.policyConfigs.find? (fun p => p.id = configID) with
  | none => (m, false)
  | some _ =>
    ({ m with policyConfigs := m.policyConfigs.filter fun p => !(p.id = configID),
              eventsBitmap := m.eventsBitmap ||| eventDeletePolicy }, true)

/-! ### Endpoint event handlers and worker -/

def pendingLookup : List (K8sName × EndpointEvent) → K8sName → Option EndpointEvent
  | [], _ => none
  | e :: t, id => if e.1 = id then some e.2 else pendingLookup t id

def pendingUpsert : List (K8sName × EndpointEvent) → K8sName → EndpointEvent →
    List (K8sName × EndpointEvent)
  | [], id, ev => [(id, ev)]
  | e :: t, id, ev => if e.1 = id then (id, ev) :: t else e :: pendingUpsert t id ev

def pendingErase (l : List (K8sName × EndpointEvent)) (id : K8sName) :
    List (K8sName × EndpointEvent) :=
  l.filter fun e => !(e.1 = id)

/-- `endpointEventIsPending`. -/
def endpointEventIsPending (m : Manager) (id : K8sName) : Bool :=
  (pendingLookup m.pendingEndpointEvents id).isSome

/-- `OnUpdateEndpoint`: store a latest-wins pending update event carrying
the endpoint, and enqueue the id. -/
def OnUpdateEndpoint (m : Manager) (endpoint : Endpoint) : Manager :=
  let id : K8sName := ⟨endpoint.name, endpoint.nspace⟩
  { m with
      pendingEndpointEvents :=
        pendingUpsert m.pendingEndpointEvents id ⟨eventUpdateEndpoint, some endpoint⟩
      queuedEndpointIDs := m.queuedEndpointIDs ++ [id] }

/-- `OnDeleteEndpoint`: store a latest-wins pending delete event with a nil
endpoint pointer, and enqueue the id. -/
def OnDeleteEndpoint (m : Manager) (endpoint : Endpoint) : Manager :=
  let id : K8sName := ⟨endpoint.name, endpoint.nspace⟩
  { m with
      pendingEndpointEvents :=
        pendingUpsert m.pendingEndpointEvents id ⟨eventDeleteEndpoint, none⟩
      queuedEndpointIDs := m.queuedEndpointIDs ++ [id] }

/-- Go map store `epDataStore[epData.id] = epData`. -/
def epUpsert (l : List EndpointMetadata) (d : EndpointMetadata) : List EndpointMetadata :=
  if l.any (fun x => x.id = d.id) then
    l.map fun x => if x.id = d.id then d else x
  else l ++ [d]

/-- `addEndpoint`. The oracles model the external collaborators:
`getIdentityLabels` (identity resolver; `none` covers both a lookup error
and a nil identity) and `getEndpointMetadata` (endpoint metadata
construction). The result is `none` when the source would dereference a nil
endpoint pointer (`endpoint.Name` on the pending event of a delete), and
otherwise `some (manager, triggerFired)`. Having re-read the pending entry:
absent — nothing to do; identity resolution failure — return without
clearing the pending entry (the worker re-enqueues it); on success clear
the pending entry, then a metadata-construction failure returns with the
store unchanged (and, the entry being cleared, the worker forgets the id),
and otherwise the endpoint is stored, the `eventUpdateEndpoint` bit is set
and the trigger fires. -/
def addEndpoint (getIdentityLabels : Nat → Option (List String))
    (getEndpointMetadata : Endpoint → List String → Option EndpointMetadata)
    (m : Manager) (id : K8sName) : Option (Manager × Bool) :=
  match pendingLookup m.pendingEndpointEvents id with
  | none => some (m, false)
  | some epEvent =>
    match epEvent.endpoint with
    | none => none
    | some endpoint =>
      match getIdentityLabels endpoint.identityID with
      | none => some (m, false)
      | some identityLabels =>
        let m1 := { m with pendingEndpointEvents := pendingErase m.pendingEndpointEvents id }
        match getEndpointMetadata endpoint identityLabels with
        | none => some (m1, false)
        | some epData =>
          some ({ m1 with epDataStore := epUpsert m1.epDataStore epData,
                          eventsBitmap := m1.eventsBitmap ||| eventUpdateEndpoint }, true)

/-- `deleteEndpoint`: drop the endpoint from the store and the pending map,
set the bit, fire the trigger. -/
def deleteEndpoint (m : Manager) (id : K8sName) : Manager × Bool :=
  ({ m with epDataStore := m.epDataStore.filter (fun x => !(x.id = id)),
            pendingEndpointEvents := pendingErase m.pendingEndpointEvents id,
            eventsBitmap := m.eventsBitmap ||| eventDeleteEndpoint }, true)

/-! ### The content the spec demands of the policy map -/

/-- Claim-level description of the policy-map content: `(k, v)` is demanded
exactly when some policy, one of its matched endpoints, one of that
endpoint's IPs and a CIDR of the policy produce it, with the sentinel
`ExcludedCIDRIPv4` as gateway on excluded CIDRs. -/
def desiredSpec (m : Manager) (k : EgressPolicyKey4) (v : EgressPolicyVal4) : Prop :=
  ∃ p ∈ m.policyConfigs, ∃ ep ∈ p.matchedEndpoints, ∃ ip ∈ ep.ips, ∃ cidr,
    k = NewEgressPolicyKey4 ip cidr ∧
    ((cidr ∈ p.dstCIDRs ∧ v = ⟨p.gatewayConfig.egressIP.ip, p.gatewayConfig.gatewayIP⟩) ∨
     (cidr ∈ p.excludedCIDRs ∧ v = ⟨p.gatewayConfig.egressIP.ip, ExcludedCIDRIPv4⟩))

/-- Claim C1 as stated: after a reconcile the policy map holds exactly the
demanded entries (the demanded set is computed over the caches as the
reconcile's own index stage leaves them). -/
def claimPolicyMapExact (m : Manager) (pm : PolicyMap) (host : HostState) : Prop :=
  ∀ k v, pmLookup (reconcileLocked m pm host).policyMap k = some v ↔
    desiredSpec (reconcileManagerStage m) k v

/-! ## General lemmas about the operation traces -/

theorem applyAdds_ops_isUpdate (snap : PolicyMap) :
    ∀ (l : List (EgressPolicyKey4 × EgressPolicyVal4)) (cur : PolicyMap),
      ∀ op ∈ (applyAdds snap l cur).2, op.isUpdate = true := by
  intro l
  induction l with
  | nil => intro cur op h; simp [applyAdds] at h
  | cons e rest ih =>
    intro cur op h
    rw [applyAdds] at h
    by_cases hc : pmLookup snap e.1 = some e.2
    · simp only [hc, if_pos rfl] at h
      exact ih cur op h
    · simp only [if_neg hc] at h
      rcases List.mem_cons.mp h with h1 | h1
      · subst h1; rfl
      · exact ih _ op h1

theorem applyRemoves_ops_isDelete (m : Manager) :
    ∀ (l : List (EgressPolicyKey4 × EgressPolicyVal4)) (cur : PolicyMap),
      ∀ op ∈ (applyRemoves m l cur).2, op.isDelete = true := by
  intro l
  induction l with
  | nil => intro cur op h; simp [applyRemoves] at h
  | cons e rest ih =>
    intro cur op h
    rw [applyRemoves] at h
    by_cases hc : entryStillNeeded m e.1 e.2
    · simp only [hc, if_pos rfl] at h
      exact ih cur op h
    · simp only [if_neg hc] at h
      rcases List.mem_cons.mp h with h1 | h1
      · subst h1; rfl
      · exact ih _ op h1

theorem update_not_delete {op : MapOp} (h : op.isUpdate = true) : op.isDelete = false := by
  cases op with
  | update k v => rfl
  | delete k => simp [MapOp.isUpdate] at h

/-- In a trace that is updates followed by deletes, every update position
precedes every delete position. -/
theorem append_update_before_delete (A B : List MapOp)
    (hA : ∀ op ∈ A, op.isUpdate = true) (hB : ∀ op ∈ B, op.isDelete = true)
    (i j : Nat) (opU opD : MapOp)
    (hU : (A ++ B).get? i = some opU) (hu : opU.isUpdate = true)
    (hD : (A ++ B).get? j = some opD) (hd : opD.isDelete = true) : i < j := by
  have hiA : i < A.length := by
    by_contra hge
    push_neg at hge
    rw [List.get?_append_right hge] at hU
    have : opU ∈ B := List.get?_mem hU
    have := hB _ this
    rw [update_not_delete hu] at this
    exact Bool.false_ne_true this
  have hjB : A.length ≤ j := by
    by_contra hlt
    push_neg at hlt
    rw [List.get?_append hlt] at hD
    have : opD ∈ A := List.get?_mem hD
    have h2 := hA _ this
    rw [update_not_delete h2] at hd
    exact Bool.false_ne_true hd
  omega

/-- The map-operation trace of a reconcile is the add-missing trace followed
by the remove-unused trace. -/
theorem reconcileLocked_mapOps (m : Manager) (pm : PolicyMap) (host : HostState) :
    (reconcileLocked m pm host).mapOps =
      (addMissingEgressRules (reconcileManagerStage m) pm).2 ++
      (removeUnusedEgressRules (reconcileManagerStage m)
        (addMissingEgressRules (reconcileManagerStage m) pm).1).2 ∨
    (reconcileLocked m pm host).mapOps = [] := by
  by_cases hs : m.cacheStatus
  · left; simp [reconcileLocked, hs]
  · right; simp [reconcileLocked, hs]

/-- C2: within one run of `reconcileLocked`, every `Update` issued to the
policy map precedes every `Delete` issued to the policy map: the add-missing
pass completes before the remove-unused pass begins. -/
theorem C2_updates_precede_deletes (m : Manager) (pm : PolicyMap) (host : HostState)
    (i j : Nat) (opU opD : MapOp)
    (hU : (reconcileLocked m pm host).mapOps.get? i = some opU) (hu : opU.isUpdate = true)
    (hD : (reconcileLocked m pm host).mapOps.get? j = some opD) (hd : opD.isDelete = true) :
    i < j := by
  rcases reconcileLocked_mapOps m pm host with h | h
  · rw [h] at hU hD
    exact append_update_before_delete _ _
      (applyAdds_ops_isUpdate _ _ _) (applyRemoves_ops_isDelete _ _ _) i j opU opD hU hu hD hd
  · rw [h] at hU
    simp at hU

/-- C9: with the cluster sync not yet done, `reconcileLocked` returns
immediately: manager (including the events bitmap), policy map and host
state are unchanged and no operation is issued. -/
theorem C9_no_sync_no_op (m : Manager) (pm : PolicyMap) (host : HostState)
    (hs : m.cacheStatus = false) :
    reconcileLocked m pm host = ⟨m, pm, host, [], []⟩ := by
  simp [reconcileLocked, hs]

/-- C7: deleting a policy whose id is not in `policyConfigs` leaves the
manager unchanged (caches, index and events bitmap) and does not fire the
trigger. -/
theorem C7_delete_unknown_policy (m : Manager) (configID : K8sName)
    (h : m.policyConfigs.find? (fun p => p.id = configID) = none) :
    OnDeleteEgressPolicy m configID = (m, false) := by
  simp [OnDeleteEgressPolicy, h]

/-! ## C6: nodes slice after node events -/

theorem sortNodes_perm (l : List Node) : (sortNodes l).Perm l :=
  List.perm_insertionSort nodeLE l

theorem sortNodes_sorted (l : List Node) : (sortNodes l).Sorted nodeLE :=
  List.sorted_insertionSort nodeLE l

theorem nodeUpsert_names_nodup (l : List Node) (n : Node)
    (h : (l.map (·.name)).Nodup) : ((nodeUpsert l n).map (·.name)).Nodup := by
  unfold nodeUpsert
  by_cases hc : l.any (fun x => x.name = n.name)
  · rw [if_pos hc]
    have : (l.map fun x => if x.name = n.name then n else x).map (·.name) =
        l.map (·.name) := by
      rw [List.map_map]
      apply List.map_congr_left
      intro a _
      simp only [Function.comp]
      by_cases hx : a.name = n.name
      · rw [if_pos hx]; exact hx.symm
      · rw [if_neg hx]
    rw [this]
    exact h
  · rw [if_neg hc]
    rw [List.map_append]
    simp only [List.map_cons, List.map_nil]
    rw [List.nodup_append]
    refine ⟨h, List.nodup_singleton _, ?_⟩
    intro a ha
    simp only [List.mem_singleton]
    intro hmem
    rcases List.mem_map.mp ha with ⟨x, hx, hxa⟩
    apply hc
    rw [List.any_eq_true]
    exact ⟨x, hx, by simp [hxa, hmem]⟩

theorem nodeErase_names_nodup (l : List Node) (s : String)
    (h : (l.map (·.name)).Nodup) : ((nodeErase l s).map (·.name)).Nodup := by
  unfold nodeErase
  have hsub : List.Sublist ((l.filter fun x => !(x.name = s)).map (·.name))
      (l.map (·.name)) := (List.filter_sublist l).map _
  exact h.sublist hsub

/-- The rebuilt `nodes` slice is a permutation of the node store and is
strictly ascending by name, provided the store keys (names) are distinct. -/
theorem onChange_nodes_sorted (store : List Node)
    (h : (store.map (·.name)).Nodup) :
    (sortNodes store).Perm store ∧
      (sortNodes store).Pairwise (fun a b => a.name < b.name) := by
  refine ⟨sortNodes_perm store, ?_⟩
  have hle : (sortNodes store).Pairwise nodeLE := sortNodes_sorted store
  have hnd : ((sortNodes store).map (·.name)).Nodup := by
    have : ((sortNodes store).map (·.name)).Perm (store.map (·.name)) :=
      (sortNodes_perm store).map _
    exact this.nodup_iff.mpr h
  have hne : (sortNodes store).Pairwise (fun a b => a.name ≠ b.name) :=
    List.pairwise_map.mp hnd
  have := hle.and hne
  exact this.imp fun h => lt_of_le_of_ne h.1 h.2

/-- C6: after `OnUpdateNode` and after `OnDeleteNode`, the `nodes` slice
contains exactly the values of `nodeDataStore` and is sorted strictly
ascending by name (node names — the store keys — are distinct). -/
theorem C6_nodes_sorted_after_node_events (m : Manager) (n : Node)
    (h : (m.nodeDataStore.map (·.name)).Nodup) :
    ((OnUpdateNode m n).1.nodes.Perm (OnUpdateNode m n).1.nodeDataStore ∧
      (OnUpdateNode m n).1.nodes.Pairwise (fun a b => a.name < b.name)) ∧
    ((OnDeleteNode m n).1.nodes.Perm (OnDeleteNode m n).1.nodeDataStore ∧
      (OnDeleteNode m n).1.nodes.Pairwise (fun a b => a.name < b.name)) :=
  ⟨onChange_nodes_sorted (nodeUpsert m.nodeDataStore n) (nodeUpsert_names_nodup _ _ h),
   onChange_nodes_sorted (nodeErase m.nodeDataStore n.name) (nodeErase_names_nodup _ _ h)⟩

/-! ## C8: addEndpoint branch behaviour -/

theorem pendingLookup_pendingErase (l : List (K8sName × EndpointEvent)) (id : K8sName) :
    pendingLookup (pendingErase l id) id = none := by
  induction l with
  | nil => rfl
  | cons e t ih =>
    unfold pendingErase at ih ⊢
    by_cases hc : e.1 = id
    · simp only [List.filter_cons, hc]
      simpa using ih
    · simp only [List.filter_cons]
      rw [if_pos (by simpa using hc)]
      rw [pendingLookup, if_neg hc]
      exact ih

/-- C8: behaviour of `addEndpoint` on a pending entry carrying an endpoint:
identity-resolution failure leaves the pending entry in place (so the
worker re-enqueues the id) and changes nothing; on resolution success the
pending entry is cleared, after which a metadata-construction failure
returns with the endpoint store unchanged (and the id no longer pending, so
the worker does not re-enqueue), while metadata success stores the
endpoint, sets the `eventUpdateEndpoint` bit and fires the trigger. -/
theorem C8_addEndpoint_branches (getL : Nat → Option (List String))
    (getM : Endpoint → List String → Option EndpointMetadata)
    (m : Manager) (id : K8sName) (ev : EndpointEvent) (ep : Endpoint)
    (hpend : pendingLookup m.pendingEndpointEvents id = some ev)
    (hep : ev.endpoint = some ep) :
    (getL ep.identityID = none →
      addEndpoint getL getM m id = some (m, false) ∧ endpointEventIsPending m id = true) ∧
    (∀ lbls, getL ep.identityID = some lbls →
      (getM ep lbls = none →
        addEndpoint getL getM m id =
          some ({ m with pendingEndpointEvents := pendingErase m.pendingEndpointEvents id },
                false) ∧
        endpointEventIsPending
          { m with pendingEndpointEvents := pendingErase m.pendingEndpointEvents id } id =
          false) ∧
      (∀ d, getM ep lbls = some d →
        addEndpoint getL getM m id =
          some ({ m with
                    pendingEndpointEvents := pendingErase m.pendingEndpointEvents id
                    epDataStore := epUpsert m.epDataStore d
                    eventsBitmap := m.eventsBitmap ||| eventUpdateEndpoint }, true))) := by
  constructor
  · intro hl
    constructor
    · simp [addEndpoint, hpend, hep, hl]
    · unfold endpointEventIsPending
      rw [hpend]
      rfl
  · intro lbls hl
    constructor
    · intro hm
      constructor
      · simp [addEndpoint, hpend, hep, hl, hm]
      · unfold endpointEventIsPending
        simp only
        rw [pendingLookup_pendingErase]
        rfl
    · intro d hm
      simp [addEndpoint, hpend, hep, hl, hm]

/-! ## C10: a pending delete event reaches addEndpoint with a nil endpoint -/

def epC10 : Endpoint := ⟨"pod-a", "default", 42⟩

def idC10 : K8sName := ⟨"pod-a", "default"⟩

/-- The initial manager of the C10 interleaving: empty caches, synchronized. -/
def managerC10 : Manager :=
  { cacheStatus := true
    nodeDataStore := []
    nodes := []
    policyConfigs := []
    policyConfigsBySourceIP := []
    epDataStore := []
    pendingEndpointEvents := []
    queuedEndpointIDs := []
    installRoutes := false
    eventsBitmap := 0 }

/-- C10 fails on the code: after `OnUpdateEndpoint(ep)` the pending entry is
an update event carrying the endpoint — so the worker, reading it, dispatches
`addEndpoint` — but if `OnDeleteEndpoint(ep)` (which takes only the pending
lock, not the manager mutex) overwrites the entry before `addEndpoint`
re-reads it, `addEndpoint` finds a pending entry whose endpoint is nil and
dereferences it (`endpoint.Name`): the model returns `none` (panic). -/
theorem C10_nil_endpoint_reachable :
    pendingLookup (OnUpdateEndpoint managerC10 epC10).pendingEndpointEvents idC10 =
      some ⟨eventUpdateEndpoint, some epC10⟩ ∧
    addEndpoint (fun _ => some []) (fun _ _ => some ⟨idC10, [5], []⟩)
      (OnDeleteEndpoint (OnUpdateEndpoint managerC10 epC10) epC10) idC10 = none := by
  constructor
  · rfl
  · rfl

/-! ## Stage shape lemmas -/

theorem eventBitmapIsSet_uM (m : Manager) (l : List Nat) :
    eventBitmapIsSet (updatePoliciesMatchedEndpointIDs m) l = eventBitmapIsSet m l := rfl

theorem eventBitmapIsSet_uI (m : Manager) (l : List Nat) :
    eventBitmapIsSet (updatePoliciesBySourceIP m) l = eventBitmapIsSet m l := rfl

/-- The index stage only rewrites `policyConfigs` and the per-source-IP
index; every other manager field is untouched. -/
theorem reconcileIndexUpdate_shape (m : Manager) :
    ∃ X Y, reconcileIndexUpdate m =
      { m with policyConfigs := X, policyConfigsBySourceIP := Y } := by
  unfold reconcileIndexUpdate
  by_cases h1 : eventBitmapIsSet m [eventUpdateEndpoint, eventDeleteEndpoint] = true <;>
    by_cases h2 : eventBitmapIsSet m [eventAddPolicy, eventDeletePolicy] = true <;>
      by_cases h3 : eventBitmapIsSet m [eventK8sSyncDone] = true <;>
        simp only [eventBitmapIsSet_uM, eventBitmapIsSet_uI, h1, h2, h3, if_true, if_false,
          Bool.false_eq_true] <;>
          exact ⟨_, _, rfl⟩

/-- The full manager stage of a reconcile only rewrites `policyConfigs` and
the per-source-IP index. -/
theorem reconcileManagerStage_shape (m : Manager) :
    ∃ X Y, reconcileManagerStage m =
      { m with policyConfigs := X, policyConfigsBySourceIP := Y } := by
  obtain ⟨X, Y, h⟩ := reconcileIndexUpdate_shape m
  refine ⟨X.map (fun p => { p with gatewayConfig := p.regenGateway m.nodes }), Y, ?_⟩
  unfold reconcileManagerStage regenerateGatewayConfigs
  rw [h]

theorem reconcileManagerStage_installRoutes (m : Manager) :
    (reconcileManagerStage m).installRoutes = m.installRoutes := by
  obtain ⟨X, Y, h⟩ := reconcileManagerStage_shape m
  rw [h]

/-! ## C4: installRoutes disabled -/

theorem addMissingIpRulesAndRoutes_disabled (m : Manager) (h : HostState) (b : Bool)
    (hflag : m.installRoutes = false) :
    addMissingIpRulesAndRoutes m h b = (h, [], false) := by
  simp [addMissingIpRulesAndRoutes, hflag]

theorem addMissingIpRulesAndRoutes_no_retry (m : Manager) (h : HostState) (b : Bool) :
    (addMissingIpRulesAndRoutes m h b).2.2 = false := by
  unfold addMissingIpRulesAndRoutes
  split <;> rfl

theorem removeRulesLoop_ops_del (m : Manager) :
    ∀ (l : List IpRule) (h : HostState), ∀ op ∈ (removeRulesLoop m l h).2,
      op.isAdd = false := by
  intro l
  induction l with
  | nil => intro h op hop; simp [removeRulesLoop] at hop
  | cons r rest ih =>
    intro h op hop
    rw [removeRulesLoop] at hop
    by_cases hc : ruleStillUsed m r
    · simp only [hc, if_pos rfl] at hop
      exact ih _ op hop
    · simp only [if_neg hc] at hop
      rcases List.mem_cons.mp hop with h1 | h1
      · subst h1; rfl
      · exact ih _ op h1

theorem removeRoutesLoop_ops_del (active : List Nat) :
    ∀ (l : List IpRoute) (h : HostState), ∀ op ∈ (removeRoutesLoop active l h).2,
      op.isAdd = false := by
  intro l
  induction l with
  | nil => intro h op hop; simp [removeRoutesLoop] at hop
  | cons rt rest ih =>
    intro h op hop
    rw [removeRoutesLoop] at hop
    by_cases hc : (rt.table != egressGatewayRoutingTableIdx rt.linkIndex) = true
    · simp only [hc, if_pos rfl] at hop
      exact ih _ op hop
    · simp only [hc, Bool.false_eq_true, if_false] at hop
      by_cases hc2 : active.any (· = rt.linkIndex)
      · simp only [hc2, if_pos rfl] at hop
        exact ih _ op hop
      · simp only [if_neg hc2] at hop
        rcases List.mem_cons.mp hop with h1 | h1
        · subst h1; rfl
        · exact ih _ op h1

theorem removeRoutesLoop_skip_all (active : List Nat) :
    ∀ (l : List IpRoute) (h : HostState),
      (∀ rt ∈ l, rt.table ≠ egressGatewayRoutingTableIdx rt.linkIndex) →
      removeRoutesLoop active l h = (h, []) := by
  intro l
  induction l with
  | nil => intro h _; rfl
  | cons rt rest ih =>
    intro h hall
    rw [removeRoutesLoop]
    have : (rt.table != egressGatewayRoutingTableIdx rt.linkIndex) = true := by
      simpa using hall rt (List.mem_cons_self rt rest)
    rw [if_pos this]
    exact ih h fun x hx => hall x (List.mem_cons_of_mem _ hx)

/-- C4 (amended): with `installRoutes = false`, a reconcile issues no
ip-rule or ip-route *add*; and when the host holds no egress-gateway IP
rule and no route in a per-interface egress-gateway table, it issues no
ip-rule or ip-route operation at all, regardless of the caches. (As stated
the claim is false: the remove pass still deletes pre-existing
egress-gateway rules and routes when the flag is off.) -/
theorem C4_no_route_ops_when_disabled (m : Manager) (pm : PolicyMap) (host : HostState)
    (hflag : m.installRoutes = false) :
    (∀ op ∈ (reconcileLocked m pm host).routeOps, op.isAdd = false) ∧
    (host.rules = [] →
      (∀ rt ∈ host.routes, rt.table ≠ egressGatewayRoutingTableIdx rt.linkIndex) →
      (reconcileLocked m pm host).routeOps = []) := by
  by_cases hs : m.cacheStatus
  · have hflag2 : (reconcileManagerStage m).installRoutes = false := by
      rw [reconcileManagerStage_installRoutes]; exact hflag
    have hops : (reconcileLocked m pm host).routeOps =
        (removeUnusedIpRulesAndRoutes (reconcileManagerStage m) host).2 := by
      simp [reconcileLocked, hs, addMissingIpRulesAndRoutes_disabled _ _ _ hflag2]
    constructor
    · intro op hop
      rw [hops] at hop
      unfold removeUnusedIpRulesAndRoutes at hop
      simp only [List.mem_append] at hop
      rcases hop with h1 | h1
      · exact removeRulesLoop_ops_del _ _ _ op h1
      · exact removeRoutesLoop_ops_del _ _ _ op h1
    · intro hrules hroutes
      rw [hops]
      unfold removeUnusedIpRulesAndRoutes
      rw [hrules]
      simp only [removeRulesLoop]
      rw [removeRoutesLoop_skip_all _ _ _ hroutes]
      rfl
  · simp only [Bool.not_eq_true] at hs
    have hempty : (reconcileLocked m pm host).routeOps = [] := by
      simp [reconcileLocked, hs]
    rw [hempty]
    constructor
    · intro op hop; simp at hop
    · intro _ _; rfl

def managerC4 : Manager :=
  { cacheStatus := true
    nodeDataStore := []
    nodes := []
    policyConfigs := []
    policyConfigsBySourceIP := []
    epDataStore := []
    pendingEndpointEvents := []
    queuedEndpointIDs := []
    installRoutes := false
    eventsBitmap := 0 }

def ruleC4 : IpRule := ⟨5, ⟨7, 24⟩, 1005⟩

/-- C4 fails as stated: with `installRoutes = false` and empty caches, a
reconcile over a host holding one egress-gateway IP rule still issues an
ip-rule delete (the remove pass cleans up unconditionally when the flag is
off). -/
theorem C4_counterexample :
    managerC4.installRoutes = false ∧ managerC4.cacheStatus = true ∧
    (reconcileLocked managerC4 [] ⟨[ruleC4], []⟩).routeOps = [RouteOp.delRule ruleC4] :=
  ⟨rfl, rfl, rfl⟩

/-! ## C5: the rebuilt per-source-IP index -/

theorem lookupIdx_idxAppend (idx : List (IP4 × List K8sName)) (ip0 : IP4) (pid0 : K8sName)
    (ip : IP4) (pid : K8sName) :
    pid ∈ lookupIdx (idxAppend idx ip0 pid0) ip ↔
      pid ∈ lookupIdx idx ip ∨ (ip0 = ip ∧ pid0 = pid) := by
  induction idx with
  | nil =>
    simp only [idxAppend, lookupIdx]
    by_cases hc : ip0 = ip
    · subst hc
      simp [lookupIdx, eq_comm]
    · simp [lookupIdx, hc]
  | cons e t ih =>
    simp only [idxAppend]
    by_cases hc : e.1 = ip0
    · rw [if_pos hc]
      by_cases hc2 : e.1 = ip
      · rw [lookupIdx, if_pos hc2, lookupIdx, if_pos hc2]
        rw [← hc, hc2]
        simp [List.mem_append, eq_comm]
      · rw [lookupIdx, if_neg hc2, lookupIdx, if_neg hc2]
        have : ¬ ip0 = ip := fun h => hc2 (hc.trans h)
        simp [this]
    · rw [if_neg hc]
      by_cases hc2 : e.1 = ip
      · rw [lookupIdx, if_pos hc2, lookupIdx, if_pos hc2]
        have : ¬ ip0 = ip := fun h => hc ((hc2.trans h.symm).symm ▸ rfl)
        simp [this]
      · rw [lookupIdx, if_neg hc2, lookupIdx, if_neg hc2]
        exact ih

theorem lookupIdx_idxAddIPs (pid0 : K8sName) :
    ∀ (ips : List IP4) (idx : List (IP4 × List K8sName)) (ip : IP4) (pid : K8sName),
      pid ∈ lookupIdx (idxAddIPs idx pid0 ips) ip ↔
        pid ∈ lookupIdx idx ip ∨ (pid = pid0 ∧ ip ∈ ips) := by
  intro ips
  induction ips with
  | nil => intro idx ip pid; simp [idxAddIPs]
  | cons i rest ih =>
    intro idx ip pid
    rw [idxAddIPs, ih, lookupIdx_idxAppend]
    constructor
    · rintro ((h | ⟨h1, h2⟩) | ⟨h1, h2⟩)
      · exact Or.inl h
      · exact Or.inr ⟨h2.symm, by rw [← h1]; exact List.mem_cons_self _ _⟩
      · exact Or.inr ⟨h1, List.mem_cons_of_mem _ h2⟩
    · rintro (h | ⟨h1, h2⟩)
      · exact Or.inl (Or.inl h)
      · rcases List.mem_cons.mp h2 with h3 | h3
        · exact Or.inl (Or.inr ⟨h3.symm, h1.symm⟩)
        · exact Or.inr ⟨h1, h3⟩

theorem lookupIdx_idxAddEndpoints (pid0 : K8sName) :
    ∀ (eps : List EndpointMetadata) (idx : List (IP4 × List K8sName)) (ip : IP4) (pid : K8sName),
      pid ∈ lookupIdx (idxAddEndpoints idx pid0 eps) ip ↔
        pid ∈ lookupIdx idx ip ∨ (pid = pid0 ∧ ∃ ep ∈ eps, ip ∈ ep.ips) := by
  intro eps
  induction eps with
  | nil => intro idx ip pid; simp [idxAddEndpoints]
  | cons ep rest ih =>
    intro idx ip pid
    rw [idxAddEndpoints, ih, lookupIdx_idxAddIPs]
    constructor
    · rintro ((h | ⟨h1, h2⟩) | ⟨h1, h2⟩)
      · exact Or.inl h
      · exact Or.inr ⟨h1, ep, List.mem_cons_self _ _, h2⟩
      · rcases h2 with ⟨e, he, hip⟩
        exact Or.inr ⟨h1, e, List.mem_cons_of_mem _ he, hip⟩
    · rintro (h | ⟨h1, e, he, hip⟩)
      · exact Or.inl (Or.inl h)
      · rcases List.mem_cons.mp he with h3 | h3
        · exact Or.inl (Or.inr ⟨h1, h3 ▸ hip⟩)
        · exact Or.inr ⟨h1, e, h3, hip⟩

theorem lookupIdx_buildIdx :
    ∀ (ps : List PolicyConfig) (idx : List (IP4 × List K8sName)) (ip : IP4) (pid : K8sName),
      pid ∈ lookupIdx (buildIdx idx ps) ip ↔
        pid ∈ lookupIdx idx ip ∨ ∃ p ∈ ps, pid = p.id ∧ ∃ ep ∈ p.matchedEndpoints, ip ∈ ep.ips := by
  intro ps
  induction ps with
  | nil => intro idx ip pid; simp [buildIdx]
  | cons p rest ih =>
    intro idx ip pid
    rw [buildIdx, ih, lookupIdx_idxAddEndpoints]
    constructor
    · rintro ((h | ⟨h1, h2⟩) | ⟨q, hq, h1, h2⟩)
      · exact Or.inl h
      · exact Or.inr ⟨p, List.mem_cons_self _ _, h1, h2⟩
      · exact Or.inr ⟨q, List.mem_cons_of_mem _ hq, h1, h2⟩
    · rintro (h | ⟨q, hq, h1, h2⟩)
      · exact Or.inl (Or.inl h)
      · rcases List.mem_cons.mp hq with h3 | h3
        · exact Or.inl (Or.inr ⟨h3 ▸ h1, h3 ▸ h2⟩)
        · exact Or.inr ⟨q, h3, h1, h2⟩

/-- Membership in the rebuilt index: exactly the ids of the policies one of
whose matched endpoints carries the IP. -/
theorem lookupIdx_updatePoliciesBySourceIP (m : Manager) (ip : IP4) (pid : K8sName) :
    pid ∈ lookupIdx (updatePoliciesBySourceIP m).policyConfigsBySourceIP ip ↔
      ∃ p ∈ m.policyConfigs, pid = p.id ∧ ∃ ep ∈ p.matchedEndpoints, ip ∈ ep.ips := by
  unfold updatePoliciesBySourceIP
  rw [lookupIdx_buildIdx]
  simp [lookupIdx]

theorem getPolicy_of_mem (m : Manager) (p : PolicyConfig)
    (hmem : p ∈ m.policyConfigs)
    (hids : (m.policyConfigs.map (·.id)).Nodup) :
    getPolicy m p.id = some p := by
  unfold getPolicy
  rcases hfind : m.policyConfigs.find? (fun q => q.id = p.id) with _ | q
  · exfalso
    have := List.find?_eq_none.mp hfind p hmem
    simp at this
  · have hqmem : q ∈ m.policyConfigs := List.mem_of_find?_eq_some hfind
    have hqid : q.id = p.id := by
      have := List.find?_some hfind
      simpa using this
    have heq := List.inj_on_of_nodup_map hids hqmem hmem (by simpa using hqid)
    rw [hfind, heq]

theorem getPolicy_eq_some (m : Manager) (pid : K8sName) (p : PolicyConfig)
    (h : getPolicy m pid = some p) : p ∈ m.policyConfigs ∧ p.id = pid := by
  unfold getPolicy at h
  refine ⟨List.mem_of_find?_eq_some h, ?_⟩
  have := List.find?_some h
  simpa using this

theorem idxAppend_nonempty (ip0 : IP4) (pid0 : K8sName) :
    ∀ (idx : List (IP4 × List K8sName)), (∀ e ∈ idx, e.2 ≠ []) →
      ∀ e ∈ idxAppend idx ip0 pid0, e.2 ≠ [] := by
  intro idx
  induction idx with
  | nil =>
    intro _ e he
    simp only [idxAppend, List.mem_singleton] at he
    subst he
    simp
  | cons x t ih =>
    intro hall e he
    rw [idxAppend] at he
    by_cases hc : x.1 = ip0
    · rw [if_pos hc] at he
      rcases List.mem_cons.mp he with h1 | h1
      · subst h1; simp
      · exact hall e (List.mem_cons_of_mem _ h1)
    · rw [if_neg hc] at he
      rcases List.mem_cons.mp he with h1 | h1
      · subst h1; exact hall e (List.mem_cons_self _ _)
      · exact ih (fun y hy => hall y (List.mem_cons_of_mem _ hy)) e h1

theorem idxAddIPs_nonempty (pid0 : K8sName) :
    ∀ (ips : List IP4) (idx : List (IP4 × List K8sName)), (∀ e ∈ idx, e.2 ≠ []) →
      ∀ e ∈ idxAddIPs idx pid0 ips, e.2 ≠ [] := by
  intro ips
  induction ips with
  | nil => intro idx h e he; exact h e he
  | cons i rest ih =>
    intro idx h e he
    rw [idxAddIPs] at he
    exact ih _ (idxAppend_nonempty _ _ _ h) e he

theorem idxAddEndpoints_nonempty (pid0 : K8sName) :
    ∀ (eps : List EndpointMetadata) (idx : List (IP4 × List K8sName)), (∀ e ∈ idx, e.2 ≠ []) →
      ∀ e ∈ idxAddEndpoints idx pid0 eps, e.2 ≠ [] := by
  intro eps
  induction eps with
  | nil => intro idx h e he; exact h e he
  | cons ep rest ih =>
    intro idx h e he
    rw [idxAddEndpoints] at he
    exact ih _ (idxAddIPs_nonempty _ _ _ h) e he

theorem buildIdx_nonempty :
    ∀ (ps : List PolicyConfig) (idx : List (IP4 × List K8sName)), (∀ e ∈ idx, e.2 ≠ []) →
      ∀ e ∈ buildIdx idx ps, e.2 ≠ [] := by
  intro ps
  induction ps with
  | nil => intro idx h e he; exact h e he
  | cons p rest ih =>
    intro idx h e he
    rw [buildIdx] at he
    exact ih _ (idxAddEndpoints_nonempty _ _ _ h) e he

/-- C5: after `updatePoliciesBySourceIP`, the per-source-IP index associates
with every IP exactly the policies of `policyConfigs` one of whose matched
endpoints carries that IP, and the index has no key with an empty policy
list. (The stored policy ids are dereferenced through `policyConfigs`,
modelling the Go pointers; policy ids are distinct, `policyConfigs` being a
map keyed by id.) -/
theorem C5_policyConfigsBySourceIP_exact (m : Manager)
    (hids : (m.policyConfigs.map (·.id)).Nodup) (ip : IP4) (P : PolicyConfig) :
    (P ∈ policiesForSourceIP (updatePoliciesBySourceIP m) ip ↔
      P ∈ m.policyConfigs ∧ ∃ ep ∈ P.matchedEndpoints, ip ∈ ep.ips) ∧
    (∀ e ∈ (updatePoliciesBySourceIP m).policyConfigsBySourceIP, e.2 ≠ []) := by
  constructor
  · unfold policiesForSourceIP
    rw [List.mem_filterMap]
    constructor
    · rintro ⟨pid, hpid, hget⟩
      have hget2 : getPolicy m pid = some P := hget
      obtain ⟨hPmem, hPid⟩ := getPolicy_eq_some m pid P hget2
      refine ⟨hPmem, ?_⟩
      rw [lookupIdx_updatePoliciesBySourceIP] at hpid
      obtain ⟨q, hq, hqid, ep, hep, hip⟩ := hpid
      have : q = P := by
        apply List.inj_on_of_nodup_map hids hq hPmem
        rw [hPid, hqid]
      subst this
      exact ⟨ep, hep, hip⟩
    · rintro ⟨hPmem, ep, hep, hip⟩
      refine ⟨P.id, ?_, getPolicy_of_mem m P hPmem hids⟩
      rw [lookupIdx_updatePoliciesBySourceIP]
      exact ⟨P, hPmem, rfl, ep, hep, hip⟩
  · intro e he
    have he2 : e ∈ buildIdx [] m.policyConfigs := he
    refine buildIdx_nonempty _ [] ?_ e he2
    intro x hx
    simp at hx

/-! ## Concrete inputs and witnesses -/

/-- An empty, synchronized manager used as the base of concrete examples. -/
def emptyManager : Manager :=
  { cacheStatus := true
    nodeDataStore := []
    nodes := []
    policyConfigs := []
    policyConfigsBySourceIP := []
    epDataStore := []
    pendingEndpointEvents := []
    queuedEndpointIDs := []
    installRoutes := false
    eventsBitmap := 0 }

def epMetaC2 : EndpointMetadata := ⟨⟨"e", "ns"⟩, [5], []⟩

def policyC2 : PolicyConfig :=
  { id := ⟨"p", "ns"⟩
    endpointSelector := fun _ => true
    dstCIDRs := [⟨12, 16⟩]
    excludedCIDRs := []
    destinationMinusExcluded := [⟨12, 16⟩]
    matchedEndpoints := [epMetaC2]
    gatewayConfig := ⟨⟨0, 0⟩, 0, 0, false⟩
    regenGateway := fun _ => ⟨⟨100, 32⟩, 3, 10, false⟩ }

def managerC2 : Manager :=
  { emptyManager with
      policyConfigs := [policyC2]
      epDataStore := [epMetaC2]
      eventsBitmap := eventK8sSyncDone }

def stalePmC2 : PolicyMap := [(⟨9, ⟨9, 9⟩⟩, ⟨1, 2⟩)]

theorem C2_witness :
    (reconcileLocked managerC2 stalePmC2 ⟨[], []⟩).mapOps.get? 0 =
      some (MapOp.update ⟨5, ⟨12, 16⟩⟩ ⟨100, 10⟩) ∧
    (reconcileLocked managerC2 stalePmC2 ⟨[], []⟩).mapOps.get? 1 =
      some (MapOp.delete ⟨9, ⟨9, 9⟩⟩) ∧
    0 < 1 :=
  ⟨by decide, by decide,
    C2_updates_precede_deletes managerC2 stalePmC2 ⟨[], []⟩ 0 1
      (MapOp.update ⟨5, ⟨12, 16⟩⟩ ⟨100, 10⟩) (MapOp.delete ⟨9, ⟨9, 9⟩⟩)
      (by decide) (by decide) (by decide) (by decide)⟩

theorem C4_witness :
    managerC4.installRoutes = false ∧
    (reconcileLocked managerC4 [] ⟨[], []⟩).routeOps = [] :=
  ⟨rfl, (C4_no_route_ops_when_disabled managerC4 [] ⟨[], []⟩ rfl).2 rfl (by simp)⟩

def epMetaC5 : EndpointMetadata := ⟨⟨"e", "ns"⟩, [7], []⟩

def policyC5 : PolicyConfig :=
  { id := ⟨"p", "ns"⟩
    endpointSelector := fun _ => true
    dstCIDRs := [⟨3, 8⟩]
    excludedCIDRs := []
    destinationMinusExcluded := [⟨3, 8⟩]
    matchedEndpoints := [epMetaC5]
    gatewayConfig := ⟨⟨0, 0⟩, 0, 0, false⟩
    regenGateway := fun _ => ⟨⟨0, 0⟩, 0, 0, false⟩ }

def managerC5 : Manager :=
  { emptyManager with policyConfigs := [policyC5], epDataStore := [epMetaC5] }

theorem C5_witness :
    (managerC5.policyConfigs.map (·.id)).Nodup ∧
    ((policyC5 ∈ policiesForSourceIP (updatePoliciesBySourceIP managerC5) 7 ↔
        policyC5 ∈ managerC5.policyConfigs ∧
          ∃ ep ∈ policyC5.matchedEndpoints, 7 ∈ ep.ips) ∧
      (∀ e ∈ (updatePoliciesBySourceIP managerC5).policyConfigsBySourceIP, e.2 ≠ [])) :=
  ⟨by decide, C5_policyConfigsBySourceIP_exact managerC5 (by decide) 7 policyC5⟩

def managerC6 : Manager :=
  { emptyManager with nodeDataStore := [⟨"b", []⟩, ⟨"a", [6]⟩] }

def nodeC6 : Node := ⟨"c", [9]⟩

theorem C6_witness :
    (managerC6.nodeDataStore.map (·.name)).Nodup ∧
    (((OnUpdateNode managerC6 nodeC6).1.nodes.Perm
        (OnUpdateNode managerC6 nodeC6).1.nodeDataStore ∧
      (OnUpdateNode managerC6 nodeC6).1.nodes.Pairwise (fun a b => a.name < b.name)) ∧
    ((OnDeleteNode managerC6 nodeC6).1.nodes.Perm
        (OnDeleteNode managerC6 nodeC6).1.nodeDataStore ∧
      (OnDeleteNode managerC6 nodeC6).1.nodes.Pairwise (fun a b => a.name < b.name))) :=
  ⟨by decide, C6_nodes_sorted_after_node_events managerC6 nodeC6 (by decide)⟩

def policyC7 : PolicyConfig :=
  { id := ⟨"q", "ns"⟩
    endpointSelector := fun _ => false
    dstCIDRs := []
    excludedCIDRs := []
    destinationMinusExcluded := []
    matchedEndpoints := []
    gatewayConfig := ⟨⟨0, 0⟩, 0, 0, false⟩
    regenGateway := fun _ => ⟨⟨0, 0⟩, 0, 0, false⟩ }

def managerC7 : Manager := { emptyManager with policyConfigs := [policyC7] }

def unknownIdC7 : K8sName := ⟨"z", "ns"⟩

theorem C7_witness :
    managerC7.policyConfigs.find? (fun p => p.id = unknownIdC7) = none ∧
    OnDeleteEgressPolicy managerC7 unknownIdC7 = (managerC7, false) :=
  ⟨rfl, C7_delete_unknown_policy managerC7 unknownIdC7 rfl⟩

def epC8 : Endpoint := ⟨"e8", "ns", 7⟩

def idC8 : K8sName := ⟨"e8", "ns"⟩

def evC8 : EndpointEvent := ⟨eventUpdateEndpoint, some epC8⟩

def managerC8 : Manager := { emptyManager with pendingEndpointEvents := [(idC8, evC8)] }

theorem C8_witness :
    pendingLookup managerC8.pendingEndpointEvents idC8 = some evC8 ∧
    evC8.endpoint = some epC8 ∧
    (addEndpoint (fun _ => none) (fun _ _ => none) managerC8 idC8 = some (managerC8, false) ∧
      endpointEventIsPending managerC8 idC8 = true) :=
  ⟨rfl, rfl,
    (C8_addEndpoint_branches (fun _ => none) (fun _ _ => none) managerC8 idC8 evC8 epC8
      rfl rfl).1 rfl⟩

def managerC9 : Manager := { emptyManager with cacheStatus := false }

theorem C9_witness :
    managerC9.cacheStatus = false ∧
    reconcileLocked managerC9 [] ⟨[], []⟩ = ⟨managerC9, [], ⟨[], []⟩, [], []⟩ :=
  ⟨rfl, C9_no_sync_no_op managerC9 [] ⟨[], []⟩ rfl⟩

/-! ## Policy-map lemmas -/

theorem pmLookup_pmUpsert (pm : PolicyMap) (k : EgressPolicyKey4) (v : EgressPolicyVal4)
    (k' : EgressPolicyKey4) :
    pmLookup (pmUpsert pm k v) k' = if k = k' then some v else pmLookup pm k' := by
  induction pm with
  | nil =>
    simp only [pmUpsert, pmLookup]
  | cons e t ih =>
    rw [pmUpsert]
    by_cases hc : e.1 = k
    · rw [if_pos hc]
      by_cases hc2 : k = k'
      · rw [pmLookup, if_pos hc2, if_pos hc2]
      · rw [pmLookup, if_neg hc2, if_neg hc2, pmLookup, if_neg (fun h => hc2 (hc ▸ h))]
    · rw [if_neg hc]
      by_cases hc2 : e.1 = k'
      · rw [pmLookup, if_pos hc2, pmLookup, if_pos hc2]
        rw [if_neg (fun h => hc (hc2.trans h.symm))]
      · rw [pmLookup, if_neg hc2, pmLookup, if_neg hc2, ih]

theorem pmLookup_pmDelete (pm : PolicyMap) (k k' : EgressPolicyKey4) :
    pmLookup (pmDelete pm k) k' = if k = k' then none else pmLookup pm k' := by
  induction pm with
  | nil => simp [pmDelete, pmLookup]
  | cons e t ih =>
    rw [pmDelete]
    by_cases hc : e.1 = k
    · rw [if_pos hc, ih]
      by_cases hc2 : k = k'
      · rw [if_pos hc2, if_pos hc2]
      · rw [if_neg hc2, if_neg hc2, pmLookup,
          if_neg (fun h => hc2 (hc.symm.trans h))]
    · rw [if_neg hc, pmLookup]
      by_cases hc2 : e.1 = k'
      · rw [if_pos hc2, if_neg (fun h => hc (hc2.trans h.symm)), pmLookup, if_pos hc2]
      · rw [if_neg hc2, ih]
        by_cases hc3 : k = k'
        · rw [if_pos hc3, if_pos hc3]
        · rw [if_neg hc3, if_neg hc3, pmLookup, if_neg hc2]

theorem mem_of_pmLookup (pm : PolicyMap) (k : EgressPolicyKey4) (v : EgressPolicyVal4)
    (h : pmLookup pm k = some v) : (k, v) ∈ pm := by
  induction pm with
  | nil => simp [pmLookup] at h
  | cons e t ih =>
    rw [pmLookup] at h
    by_cases hc : e.1 = k
    · rw [if_pos hc] at h
      injection h with h2
      have he : e = (k, v) := by
        rcases e with ⟨k0, v0⟩
        simp only at hc h2
        rw [hc, h2]
      rw [← he]
      exact List.mem_cons_self _ _
    · rw [if_neg hc] at h
      exact List.mem_cons_of_mem _ (ih h)

theorem pmLookup_eq_some_of_mem (pm : PolicyMap) (k : EgressPolicyKey4)
    (v : EgressPolicyVal4) (hmem : (k, v) ∈ pm) (hnd : (pmKeys pm).Nodup) :
    pmLookup pm k = some v := by
  induction pm with
  | nil => simp at hmem
  | cons e t ih =>
    rw [pmKeys, List.map_cons, List.nodup_cons] at hnd
    rcases List.mem_cons.mp hmem with h1 | h1
    · rw [pmLookup, ← h1]
      simp
    · rw [pmLookup]
      by_cases hc : e.1 = k
      · exfalso
        apply hnd.1
        rw [hc]
        exact List.mem_map.mpr ⟨(k, v), h1, rfl⟩
      · rw [if_neg hc]
        exact ih h1 hnd.2

theorem mem_pmKeys_pmUpsert (pm : PolicyMap) (k : EgressPolicyKey4) (v : EgressPolicyVal4)
    (key : EgressPolicyKey4) :
    key ∈ pmKeys (pmUpsert pm k v) ↔ key ∈ pmKeys pm ∨ key = k := by
  induction pm with
  | nil => simp [pmUpsert, pmKeys]
  | cons e t ih =>
    rw [pmUpsert]
    by_cases hc : e.1 = k
    · rw [if_pos hc]
      simp only [pmKeys, List.map_cons, List.mem_cons]
      rw [hc]
      constructor
      · rintro (h | h)
        · exact Or.inr h
        · exact Or.inl (Or.inr h)
      · rintro ((h | h) | h)
        · exact Or.inl h
        · exact Or.inr h
        · exact Or.inl h
    · rw [if_neg hc]
      simp only [pmKeys, List.map_cons, List.mem_cons] at ih ⊢
      rw [ih]
      tauto

theorem pmKeys_pmUpsert_nodup (pm : PolicyMap) (k : EgressPolicyKey4) (v : EgressPolicyVal4)
    (hnd : (pmKeys pm).Nodup) : (pmKeys (pmUpsert pm k v)).Nodup := by
  induction pm with
  | nil => simp [pmUpsert, pmKeys]
  | cons e t ih =>
    rw [pmKeys, List.map_cons, List.nodup_cons] at hnd
    rw [pmUpsert]
    by_cases hc : e.1 = k
    · rw [if_pos hc, pmKeys, List.map_cons, List.nodup_cons]
      exact ⟨hc ▸ hnd.1, hnd.2⟩
    · rw [if_neg hc, pmKeys, List.map_cons, List.nodup_cons]
      constructor
      · intro hmem
        rcases (mem_pmKeys_pmUpsert t k v e.1).mp hmem with h | h
        · exact hnd.1 h
        · exact hc h
      · exact ih hnd.2

theorem mem_of_mem_pmDelete (pm : PolicyMap) (k : EgressPolicyKey4) :
    ∀ x, x ∈ pmDelete pm k → x ∈ pm := by
  induction pm with
  | nil => intro x hx; simp [pmDelete] at hx
  | cons e t ih =>
    intro x hx
    rw [pmDelete] at hx
    by_cases hc : e.1 = k
    · rw [if_pos hc] at hx
      exact List.mem_cons_of_mem _ (ih x hx)
    · rw [if_neg hc] at hx
      rcases List.mem_cons.mp hx with h1 | h1
      · exact h1 ▸ List.mem_cons_self _ _
      · exact List.mem_cons_of_mem _ (ih x h1)

theorem pmKeys_pmDelete_nodup (pm : PolicyMap) (k : EgressPolicyKey4)
    (hnd : (pmKeys pm).Nodup) : (pmKeys (pmDelete pm k)).Nodup := by
  induction pm with
  | nil => simp [pmDelete, pmKeys]
  | cons e t ih =>
    rw [pmKeys, List.map_cons, List.nodup_cons] at hnd
    rw [pmDelete]
    by_cases hc : e.1 = k
    · rw [if_pos hc]
      exact ih hnd.2
    · rw [if_neg hc, pmKeys, List.map_cons, List.nodup_cons]
      constructor
      · intro hmem
        apply hnd.1
        rcases List.mem_map.mp hmem with ⟨x, hx, hxe⟩
        exact List.mem_map.mpr ⟨x, mem_of_mem_pmDelete t k x hx, hxe⟩
      · exact ih hnd.2

/-! ## Add-missing pass lemmas -/

theorem applyAdds_nodup (snap : PolicyMap) :
    ∀ (l : List (EgressPolicyKey4 × EgressPolicyVal4)) (cur : PolicyMap),
      (pmKeys cur).Nodup → (pmKeys (applyAdds snap l cur).1).Nodup := by
  intro l
  induction l with
  | nil => intro cur h; exact h
  | cons e rest ih =>
    intro cur h
    rw [applyAdds]
    by_cases hc : pmLookup snap e.1 = some e.2
    · rw [if_pos hc]
      exact ih cur h
    · rw [if_neg hc]
      exact ih _ (pmKeys_pmUpsert_nodup cur e.1 e.2 h)

theorem applyAdds_lookup_stable (snap : PolicyMap) (k : EgressPolicyKey4)
    (v : EgressPolicyVal4) :
    ∀ (l : List (EgressPolicyKey4 × EgressPolicyVal4)) (cur : PolicyMap),
      (∀ v', (k, v') ∈ l → v' = v) → pmLookup cur k = some v →
      pmLookup (applyAdds snap l cur).1 k = some v := by
  intro l
  induction l with
  | nil => intro cur _ h; exact h
  | cons e rest ih =>
    intro cur hval h
    rw [applyAdds]
    by_cases hc : pmLookup snap e.1 = some e.2
    · rw [if_pos hc]
      exact ih cur (fun v' hv' => hval v' (List.mem_cons_of_mem _ hv')) h
    · rw [if_neg hc]
      simp only
      apply ih _ (fun v' hv' => hval v' (List.mem_cons_of_mem _ hv'))
      rw [pmLookup_pmUpsert]
      by_cases hke : e.1 = k
      · rw [if_pos hke]
        have : e.2 = v := hval e.2 (by rw [← hke]; exact List.mem_cons_self _ _)
        rw [this]
      · rw [if_neg hke]
        exact h

theorem applyAdds_lookup_of_mem (snap : PolicyMap) (k : EgressPolicyKey4)
    (v : EgressPolicyVal4) :
    ∀ (l : List (EgressPolicyKey4 × EgressPolicyVal4)) (cur : PolicyMap),
      (k, v) ∈ l → (∀ v', (k, v') ∈ l → v' = v) →
      (pmLookup snap k = some v → pmLookup cur k = some v) →
      pmLookup (applyAdds snap l cur).1 k = some v := by
  intro l
  induction l with
  | nil => intro cur h; simp at h
  | cons e rest ih =>
    intro cur hmem hval hsnap
    rw [applyAdds]
    by_cases hc : pmLookup snap e.1 = some e.2
    · rw [if_pos hc]
      rcases List.mem_cons.mp hmem with h1 | h1
      · have hek : e.1 = k := by rw [← h1]
        have hev : e.2 = v := by rw [← h1]
        apply applyAdds_lookup_stable snap k v rest cur
          (fun v' hv' => hval v' (List.mem_cons_of_mem _ hv'))
        apply hsnap
        rw [← hek, ← hev]
        exact hc
      · exact ih cur h1 (fun v' hv' => hval v' (List.mem_cons_of_mem _ hv'))
          (fun hs => hsnap hs)
    · rw [if_neg hc]
      simp only
      rcases List.mem_cons.mp hmem with h1 | h1
      · have hek : e.1 = k := by rw [← h1]
        have hev : e.2 = v := by rw [← h1]
        apply applyAdds_lookup_stable snap k v rest _
          (fun v' hv' => hval v' (List.mem_cons_of_mem _ hv'))
        rw [pmLookup_pmUpsert, hek, if_pos rfl, hev]
      · apply ih _ h1 (fun v' hv' => hval v' (List.mem_cons_of_mem _ hv'))
        intro hs
        rw [pmLookup_pmUpsert]
        by_cases hke : e.1 = k
        · rw [if_pos hke]
          have : e.2 = v := hval e.2 (by rw [← hke]; exact List.mem_cons_self _ _)
          rw [this]
        · rw [if_neg hke]
          exact hsnap hs

theorem applyAdds_skip_all (snap : PolicyMap) :
    ∀ (l : List (EgressPolicyKey4 × EgressPolicyVal4)) (cur : PolicyMap),
      (∀ e ∈ l, pmLookup snap e.1 = some e.2) →
      applyAdds snap l cur = (cur, []) := by
  intro l
  induction l with
  | nil => intro cur _; rfl
  | cons e rest ih =>
    intro cur hall
    rw [applyAdds]
    rw [if_pos (hall e (List.mem_cons_self _ _))]
    exact ih cur fun x hx => hall x (List.mem_cons_of_mem _ hx)

/-! ## Remove-unused pass lemmas -/

theorem applyRemoves_lookup (m : Manager) (k : EgressPolicyKey4) :
    ∀ (l : List (EgressPolicyKey4 × EgressPolicyVal4)) (cur : PolicyMap),
      pmLookup (applyRemoves m l cur).1 k =
        if l.any (fun e => e.1 = k && !entryStillNeeded m e.1 e.2) then none
        else pmLookup cur k := by
  intro l
  induction l with
  | nil => intro cur; simp [applyRemoves]
  | cons e rest ih =>
    intro cur
    rw [applyRemoves]
    by_cases hc : entryStillNeeded m e.1 e.2
    · rw [if_pos hc, ih]
      have he : (decide (e.1 = k) && !entryStillNeeded m e.1 e.2) = false := by
        rw [hc]
        simp
      rw [List.any_cons, he, Bool.false_or]
    · rw [if_neg hc]
      simp only
      rw [ih]
      have hcf : entryStillNeeded m e.1 e.2 = false := Bool.eq_false_iff.mpr hc
      have hnc : (!entryStillNeeded m e.1 e.2) = true := by rw [hcf]; rfl
      by_cases hek : e.1 = k
      · have he : (decide (e.1 = k) && !entryStillNeeded m e.1 e.2) = true := by
          rw [hnc, decide_eq_true hek]
          rfl
        rw [List.any_cons, he, Bool.true_or, if_pos rfl]
        by_cases hrest : rest.any (fun e => e.1 = k && !entryStillNeeded m e.1 e.2)
        · rw [if_pos hrest]
        · rw [if_neg hrest, pmLookup_pmDelete, if_pos hek]
      · have he : (decide (e.1 = k) && !entryStillNeeded m e.1 e.2) = false := by
          rw [decide_eq_false hek]
          rfl
        rw [List.any_cons, he, Bool.false_or]
        by_cases hrest : rest.any (fun e => e.1 = k && !entryStillNeeded m e.1 e.2)
        · rw [if_pos hrest, if_pos hrest]
        · rw [if_neg hrest, if_neg hrest, pmLookup_pmDelete, if_neg hek]

theorem applyRemoves_keep_all (m : Manager) :
    ∀ (l : List (EgressPolicyKey4 × EgressPolicyVal4)) (cur : PolicyMap),
      (∀ e ∈ l, entryStillNeeded m e.1 e.2 = true) →
      applyRemoves m l cur = (cur, []) := by
  intro l
  induction l with
  | nil => intro cur _; rfl
  | cons e rest ih =>
    intro cur hall
    rw [applyRemoves, if_pos (hall e (List.mem_cons_self _ _))]
    exact ih cur fun x hx => hall x (List.mem_cons_of_mem _ hx)

theorem applyRemoves_nodup (m : Manager) :
    ∀ (l : List (EgressPolicyKey4 × EgressPolicyVal4)) (cur : PolicyMap),
      (pmKeys cur).Nodup → (pmKeys (applyRemoves m l cur).1).Nodup := by
  intro l
  induction l with
  | nil => intro cur h; exact h
  | cons e rest ih =>
    intro cur h
    rw [applyRemoves]
    by_cases hc : entryStillNeeded m e.1 e.2
    · rw [if_pos hc]
      exact ih cur h
    · rw [if_neg hc]
      exact ih _ (pmKeys_pmDelete_nodup cur e.1 h)

/-! ## The desired policy-map content -/

theorem mem_desiredList_iff (m : Manager) (k : EgressPolicyKey4) (v : EgressPolicyVal4) :
    (k, v) ∈ desiredList m ↔
      ∃ p ∈ m.policyConfigs, ∃ ep ∈ p.matchedEndpoints, ∃ ip ∈ ep.ips,
        ((∃ c ∈ p.dstCIDRs, k = ⟨ip, c⟩ ∧
            v = ⟨p.gatewayConfig.egressIP.ip, p.gatewayConfig.gatewayIP⟩) ∨
         (∃ c ∈ p.excludedCIDRs, k = ⟨ip, c⟩ ∧
            v = ⟨p.gatewayConfig.egressIP.ip, ExcludedCIDRIPv4⟩)) := by
  simp only [desiredList, forEachEndpointAndCIDR, List.mem_flatMap, List.mem_map,
    List.mem_append]
  constructor
  · rintro ⟨p, hp, t, ⟨ep, hep, ip, hip, ht⟩, hEq⟩
    refine ⟨p, hp, ep, hep, ip, hip, ?_⟩
    rcases ht with ⟨c, hc, rfl⟩ | ⟨c, hc, rfl⟩
    · left
      exact ⟨c, hc, (congrArg Prod.fst hEq).symm, (congrArg Prod.snd hEq).symm⟩
    · right
      exact ⟨c, hc, (congrArg Prod.fst hEq).symm, (congrArg Prod.snd hEq).symm⟩
  · rintro ⟨p, hp, ep, hep, ip, hip, ⟨c, hc, hk, hv⟩ | ⟨c, hc, hk, hv⟩⟩
    · refine ⟨p, hp, (ip, c, false), ⟨ep, hep, ip, hip, Or.inl ⟨c, hc, rfl⟩⟩, ?_⟩
      rw [hk, hv]; rfl
    · refine ⟨p, hp, (ip, c, true), ⟨ep, hep, ip, hip, Or.inr ⟨c, hc, rfl⟩⟩, ?_⟩
      rw [hk, hv]; rfl

theorem desiredSpec_iff_mem (m : Manager) (k : EgressPolicyKey4) (v : EgressPolicyVal4) :
    desiredSpec m k v ↔ (k, v) ∈ desiredList m := by
  rw [mem_desiredList_iff]
  unfold desiredSpec NewEgressPolicyKey4
  constructor
  · rintro ⟨p, hp, ep, hep, ip, hip, c, hk, ⟨hc, hv⟩ | ⟨hc, hv⟩⟩
    · exact ⟨p, hp, ep, hep, ip, hip, Or.inl ⟨c, hc, hk, hv⟩⟩
    · exact ⟨p, hp, ep, hep, ip, hip, Or.inr ⟨c, hc, hk, hv⟩⟩
  · rintro ⟨p, hp, ep, hep, ip, hip, ⟨c, hc, hk, hv⟩ | ⟨c, hc, hk, hv⟩⟩
    · exact ⟨p, hp, ep, hep, ip, hip, c, hk, Or.inl ⟨hc, hv⟩⟩
    · exact ⟨p, hp, ep, hep, ip, hip, c, hk, Or.inr ⟨hc, hv⟩⟩

/-- Consistency of the per-source-IP index with the current policies: the
state `updatePoliciesBySourceIP` establishes. -/
def idxConsistent (m : Manager) : Prop :=
  ∀ src pid, pid ∈ lookupIdx m.policyConfigsBySourceIP src ↔
    ∃ p ∈ m.policyConfigs, pid = p.id ∧ ∃ ep ∈ p.matchedEndpoints, src ∈ ep.ips

theorem idxConsistent_updatePoliciesBySourceIP (m : Manager) :
    idxConsistent (updatePoliciesBySourceIP m) := by
  intro src pid
  exact lookupIdx_updatePoliciesBySourceIP m src pid

theorem idxConsistent_regen (m : Manager) (h : idxConsistent m) :
    idxConsistent (regenerateGatewayConfigs m) := by
  intro src pid
  constructor
  · intro hmem
    obtain ⟨p, hp, hid, ep, hep, hip⟩ := (h src pid).mp hmem
    exact ⟨{ p with gatewayConfig := p.regenGateway m.nodes },
      List.mem_map_of_mem _ hp, hid, ep, hep, hip⟩
  · rintro ⟨q, hq, hid, ep, hep, hip⟩
    rcases List.mem_map.mp hq with ⟨p, hp, rfl⟩
    exact (h src pid).mpr ⟨p, hp, hid, ep, hep, hip⟩

theorem ids_regen (m : Manager) :
    (regenerateGatewayConfigs m).policyConfigs.map (·.id) = m.policyConfigs.map (·.id) := by
  unfold regenerateGatewayConfigs
  rw [List.map_map]
  exact List.map_congr_left fun p _ => rfl

/-- `entryStillNeeded` probes exactly the desired entries, provided the
index is consistent and policy ids are distinct. -/
theorem entryStillNeeded_iff (m : Manager) (hidx : idxConsistent m)
    (hids : (m.policyConfigs.map (·.id)).Nodup) (k : EgressPolicyKey4)
    (v : EgressPolicyVal4) :
    entryStillNeeded m k v = true ↔ (k, v) ∈ desiredList m := by
  unfold entryStillNeeded policyMatches
  rw [List.any_eq_true]
  constructor
  · rintro ⟨pid, hpid, hbody⟩
    rcases hg : getPolicy m pid with _ | p
    · rw [hg] at hbody
      simp at hbody
    · rw [hg] at hbody
      obtain ⟨hpmem, hpid_eq⟩ := getPolicy_eq_some m pid p hg
      rw [List.any_eq_true] at hbody
      obtain ⟨ep, hep, hbody2⟩ := hbody
      rw [List.any_eq_true] at hbody2
      obtain ⟨ip, hip, hbody3⟩ := hbody2
      rw [Bool.and_eq_true] at hbody3
      obtain ⟨hipsrc, hrest⟩ := hbody3
      rw [Bool.or_eq_true] at hrest
      rw [mem_desiredList_iff]
      refine ⟨p, hpmem, ep, hep, ip, hip, ?_⟩
      rcases hrest with hd | he
      · rw [List.any_eq_true] at hd
        obtain ⟨c, hc, hmatch⟩ := hd
        rw [Bool.and_eq_true] at hmatch
        obtain ⟨hkm, hvm⟩ := hmatch
        unfold EgressPolicyKey4.Match at hkm
        unfold EgressPolicyVal4.Match at hvm
        rw [Bool.and_eq_true, decide_eq_true_eq, decide_eq_true_eq] at hkm
        rw [Bool.and_eq_true, decide_eq_true_eq, decide_eq_true_eq] at hvm
        left
        refine ⟨c, hc, ?_, ?_⟩
        · rcases k with ⟨ks, kc⟩
          simp only at hkm
          rw [hkm.1, hkm.2]
        · rcases v with ⟨ve, vg⟩
          simp only at hvm
          rw [hvm.1, hvm.2]
          simp
      · rw [List.any_eq_true] at he
        obtain ⟨c, hc, hmatch⟩ := he
        rw [Bool.and_eq_true] at hmatch
        obtain ⟨hkm, hvm⟩ := hmatch
        unfold EgressPolicyKey4.Match at hkm
        unfold EgressPolicyVal4.Match at hvm
        rw [Bool.and_eq_true, decide_eq_true_eq, decide_eq_true_eq] at hkm
        rw [Bool.and_eq_true, decide_eq_true_eq, decide_eq_true_eq] at hvm
        right
        refine ⟨c, hc, ?_, ?_⟩
        · rcases k with ⟨ks, kc⟩
          simp only at hkm
          rw [hkm.1, hkm.2]
        · rcases v with ⟨ve, vg⟩
          simp only at hvm
          rw [hvm.1, hvm.2]
          simp
  · intro hmem
    rw [mem_desiredList_iff] at hmem
    obtain ⟨p, hp, ep, hep, ip, hip, hcase⟩ := hmem
    have hksrc : k.sourceIP = ip := by
      rcases hcase with ⟨c, hc, hk, hv⟩ | ⟨c, hc, hk, hv⟩ <;> rw [hk]
    refine ⟨p.id, ?_, ?_⟩
    · apply (hidx k.sourceIP p.id).mpr
      exact ⟨p, hp, rfl, ep, hep, hksrc ▸ hip⟩
    · rw [getPolicy_of_mem m p hp hids]
      rw [List.any_eq_true]
      refine ⟨ep, hep, ?_⟩
      rw [List.any_eq_true]
      refine ⟨ip, hip, ?_⟩
      rw [Bool.and_eq_true]
      constructor
      · rw [decide_eq_true_eq]
        exact hksrc.symm
      · rw [Bool.or_eq_true]
        rcases hcase with ⟨c, hc, hk, hv⟩ | ⟨c, hc, hk, hv⟩
        · left
          rw [List.any_eq_true]
          refine ⟨c, hc, ?_⟩
          rw [Bool.and_eq_true]
          constructor
          · unfold EgressPolicyKey4.Match
            rw [Bool.and_eq_true, decide_eq_true_eq, decide_eq_true_eq]
            rw [hk]
            exact ⟨rfl, rfl⟩
          · unfold EgressPolicyVal4.Match
            rw [Bool.and_eq_true, decide_eq_true_eq, decide_eq_true_eq]
            rw [hv]
            exact ⟨rfl, rfl⟩
        · right
          rw [List.any_eq_true]
          refine ⟨c, hc, ?_⟩
          rw [Bool.and_eq_true]
          constructor
          · unfold EgressPolicyKey4.Match
            rw [Bool.and_eq_true, decide_eq_true_eq, decide_eq_true_eq]
            rw [hk]
            exact ⟨rfl, rfl⟩
          · unfold EgressPolicyVal4.Match
            rw [Bool.and_eq_true, decide_eq_true_eq, decide_eq_true_eq]
            rw [hv]
            exact ⟨rfl, rfl⟩

/-! ## Index-stage composition -/

theorem uM_idemp (m : Manager) :
    updatePoliciesMatchedEndpointIDs (updatePoliciesMatchedEndpointIDs m) =
      updatePoliciesMatchedEndpointIDs m := by
  unfold updatePoliciesMatchedEndpointIDs PolicyConfig.updateMatchedEndpointIDs
  simp only [List.map_map]
  congr 1

theorem uI_uM_uI (m : Manager) :
    updatePoliciesBySourceIP (updatePoliciesMatchedEndpointIDs (updatePoliciesBySourceIP m)) =
      updatePoliciesBySourceIP (updatePoliciesMatchedEndpointIDs m) := rfl

theorem uI_uI (m : Manager) :
    updatePoliciesBySourceIP (updatePoliciesBySourceIP m) = updatePoliciesBySourceIP m := rfl

theorem uI_uM_congr (m m' : Manager) (h : updatePoliciesMatchedEndpointIDs m =
    updatePoliciesMatchedEndpointIDs m') :
    updatePoliciesBySourceIP (updatePoliciesMatchedEndpointIDs m) =
      updatePoliciesBySourceIP (updatePoliciesMatchedEndpointIDs m') := by rw [h]

/-- With the k8s-sync bit set, the conditional index refresh amounts to the
full rebuild. -/
theorem reconcileIndexUpdate_k8s (m : Manager)
    (hK8s : eventBitmapIsSet m [eventK8sSyncDone] = true) :
    reconcileIndexUpdate m =
      updatePoliciesBySourceIP (updatePoliciesMatchedEndpointIDs m) := by
  unfold reconcileIndexUpdate
  by_cases h1 : eventBitmapIsSet m [eventUpdateEndpoint, eventDeleteEndpoint] = true <;>
    by_cases h2 : eventBitmapIsSet m [eventAddPolicy, eventDeletePolicy] = true <;>
      simp only [eventBitmapIsSet_uM, eventBitmapIsSet_uI, h1, h2, hK8s, if_true, if_false,
        Bool.false_eq_true]
  · rw [uI_uI, uI_uM_uI, uI_uM_congr _ _ (uM_idemp m)]
  · rw [uI_uM_uI, uI_uM_congr _ _ (uM_idemp m)]
  · rw [uI_uM_uI]

/-- With an empty events bitmap, the conditional index refresh is a no-op. -/
theorem reconcileIndexUpdate_no_events (m : Manager) (h : m.eventsBitmap = 0) :
    reconcileIndexUpdate m = m := by
  have hz : ∀ l, eventBitmapIsSet m l = false := by
    intro l
    simp [eventBitmapIsSet, h]
  unfold reconcileIndexUpdate
  simp only [hz, Bool.false_eq_true, if_false]

/-! ## The policy map after a full reconcile -/

theorem ids_uM (m : Manager) :
    (updatePoliciesMatchedEndpointIDs m).policyConfigs.map (·.id) =
      m.policyConfigs.map (·.id) := by
  unfold updatePoliciesMatchedEndpointIDs PolicyConfig.updateMatchedEndpointIDs
  simp only [List.map_map]
  exact List.map_congr_left fun p _ => rfl

theorem reconcileManagerStage_ids (m : Manager)
    (hK8s : eventBitmapIsSet m [eventK8sSyncDone] = true) :
    (reconcileManagerStage m).policyConfigs.map (·.id) = m.policyConfigs.map (·.id) := by
  unfold reconcileManagerStage
  rw [ids_regen, reconcileIndexUpdate_k8s m hK8s]
  have : (updatePoliciesBySourceIP (updatePoliciesMatchedEndpointIDs m)).policyConfigs =
      (updatePoliciesMatchedEndpointIDs m).policyConfigs := rfl
  rw [this, ids_uM]

theorem reconcileManagerStage_idxConsistent (m : Manager)
    (hK8s : eventBitmapIsSet m [eventK8sSyncDone] = true) :
    idxConsistent (reconcileManagerStage m) := by
  unfold reconcileManagerStage
  rw [reconcileIndexUpdate_k8s m hK8s]
  exact idxConsistent_regen _ (idxConsistent_updatePoliciesBySourceIP _)

/-- Core content lemma: after a reconcile with the k8s-sync bit set, over a
well-keyed policy map and a conflict-free desired set, the final policy map
holds an entry exactly when it is desired. -/
theorem reconcile_policyMap_lookup (m : Manager) (pm : PolicyMap) (host : HostState)
    (hsync : m.cacheStatus = true)
    (hK8s : eventBitmapIsSet m [eventK8sSyncDone] = true)
    (hids : (m.policyConfigs.map (·.id)).Nodup)
    (hpm : (pmKeys pm).Nodup)
    (hconf : ∀ e1 ∈ desiredList (reconcileManagerStage m),
      ∀ e2 ∈ desiredList (reconcileManagerStage m), e1.1 = e2.1 → e1.2 = e2.2)
    (k : EgressPolicyKey4) (v : EgressPolicyVal4) :
    pmLookup ((reconcileLocked m pm host).policyMap) k = some v ↔
      (k, v) ∈ desiredList (reconcileManagerStage m) := by
  have hpmap : (reconcileLocked m pm host).policyMap =
      (applyRemoves (reconcileManagerStage m)
        ((applyAdds pm (desiredList (reconcileManagerStage m)) pm).1)
        ((applyAdds pm (desiredList (reconcileManagerStage m)) pm).1)).1 := by
    simp [reconcileLocked, hsync, addMissingEgressRules, removeUnusedEgressRules]
  have hMids : ((reconcileManagerStage m).policyConfigs.map (·.id)).Nodup := by
    rw [reconcileManagerStage_ids m hK8s]
    exact hids
  have hMidx : idxConsistent (reconcileManagerStage m) :=
    reconcileManagerStage_idxConsistent m hK8s
  have hval : ∀ k0 v0, (k0, v0) ∈ desiredList (reconcileManagerStage m) →
      ∀ v', (k0, v') ∈ desiredList (reconcileManagerStage m) → v' = v0 := by
    intro k0 v0 hmem v' hv'
    exact hconf (k0, v') hv' (k0, v0) hmem rfl
  have h1 : ∀ k0 v0, (k0, v0) ∈ desiredList (reconcileManagerStage m) →
      pmLookup ((applyAdds pm (desiredList (reconcileManagerStage m)) pm).1) k0 = some v0 := by
    intro k0 v0 hmem
    exact applyAdds_lookup_of_mem pm k0 v0 _ pm hmem (hval k0 v0 hmem) (fun h => h)
  have hnd1 : (pmKeys ((applyAdds pm (desiredList (reconcileManagerStage m)) pm).1)).Nodup :=
    applyAdds_nodup pm _ pm hpm
  rw [hpmap, applyRemoves_lookup]
  by_cases hany : ((applyAdds pm (desiredList (reconcileManagerStage m)) pm).1).any
      (fun e => e.1 = k && !entryStillNeeded (reconcileManagerStage m) e.1 e.2) = true
  · rw [if_pos hany]
    constructor
    · intro h
      exact absurd h (by simp)
    · intro hmem
      exfalso
      rw [List.any_eq_true] at hany
      obtain ⟨e, hemem, he⟩ := hany
      rw [Bool.and_eq_true, decide_eq_true_eq] at he
      obtain ⟨hek, hneed⟩ := he
      have hlk : pmLookup ((applyAdds pm (desiredList (reconcileManagerStage m)) pm).1) k =
          some v := h1 k v hmem
      have hlk2 : pmLookup ((applyAdds pm (desiredList (reconcileManagerStage m)) pm).1) e.1 =
          some e.2 := pmLookup_eq_some_of_mem _ e.1 e.2 (by rcases e; exact hemem) hnd1
      rw [hek] at hlk2
      rw [hlk] at hlk2
      injection hlk2 with hlk2
      have hneed2 : entryStillNeeded (reconcileManagerStage m) k v = true :=
        (entryStillNeeded_iff _ hMidx hMids k v).mpr hmem
      rw [Bool.not_eq_true'] at hneed
      rw [hek] at hneed
      have hneedv : entryStillNeeded (reconcileManagerStage m) k v = false := by
        rw [hlk2]
        exact hneed
      rw [hneed2] at hneedv
      simp at hneedv
  · rw [if_neg hany]
    constructor
    · intro hl
      have hmem1 : (k, v) ∈ (applyAdds pm (desiredList (reconcileManagerStage m)) pm).1 :=
        mem_of_pmLookup _ k v hl
      have hneed : entryStillNeeded (reconcileManagerStage m) k v = true := by
        by_contra hneg
        apply hany
        rw [List.any_eq_true]
        refine ⟨(k, v), hmem1, ?_⟩
        rw [Bool.and_eq_true, decide_eq_true_eq]
        exact ⟨rfl, by rw [Bool.not_eq_true', Bool.eq_false_iff]; exact hneg⟩
      exact (entryStillNeeded_iff _ hMidx hMids k v).mp hneed
    · intro hmem
      exact h1 k v hmem

/-- C1 (amended): after a reconcile with the cluster sync done and the
k8s-sync bit set (so that the reconcile performs its full index rebuild),
over a well-keyed policy map, and provided no two desired tuples assign
different values to the same `(ip, cidr)` key, the policy map afterwards
contains exactly one entry per desired `(policy, endpoint, ip, cidr)` tuple
with the sentinel `0.0.0.1` as gateway on excluded CIDRs, and no other
entry. -/
theorem C1_policy_map_exact (m : Manager) (pm : PolicyMap) (host : HostState)
    (hsync : m.cacheStatus = true)
    (hK8s : eventBitmapIsSet m [eventK8sSyncDone] = true)
    (hids : (m.policyConfigs.map (·.id)).Nodup)
    (hpm : (pmKeys pm).Nodup)
    (hconf : ∀ e1 ∈ desiredList (reconcileManagerStage m),
      ∀ e2 ∈ desiredList (reconcileManagerStage m), e1.1 = e2.1 → e1.2 = e2.2) :
    claimPolicyMapExact m pm host := by
  intro k v
  rw [reconcile_policyMap_lookup m pm host hsync hK8s hids hpm hconf k v]
  exact (desiredSpec_iff_mem _ k v).symm

def epMetaCX : EndpointMetadata := ⟨⟨"e", "ns"⟩, [5], []⟩

def policyCXa : PolicyConfig :=
  { id := ⟨"pa", "ns"⟩
    endpointSelector := fun _ => true
    dstCIDRs := [⟨12, 16⟩]
    excludedCIDRs := []
    destinationMinusExcluded := [⟨12, 16⟩]
    matchedEndpoints := [epMetaCX]
    gatewayConfig := ⟨⟨0, 0⟩, 0, 0, false⟩
    regenGateway := fun _ => ⟨⟨100, 32⟩, 3, 10, false⟩ }

def policyCXb : PolicyConfig :=
  { id := ⟨"pb", "ns"⟩
    endpointSelector := fun _ => true
    dstCIDRs := [⟨12, 16⟩]
    excludedCIDRs := []
    destinationMinusExcluded := [⟨12, 16⟩]
    matchedEndpoints := [epMetaCX]
    gatewayConfig := ⟨⟨0, 0⟩, 0, 0, false⟩
    regenGateway := fun _ => ⟨⟨200, 32⟩, 3, 20, false⟩ }

def managerCX : Manager :=
  { emptyManager with
      policyConfigs := [policyCXa, policyCXb]
      epDataStore := [epMetaCX]
      eventsBitmap := eventK8sSyncDone }

/-- C1 fails as stated: with two policies selecting the same endpoint and the
same destination CIDR but different gateway configs, the map cannot hold one
entry per policy for the shared key — the add pass writes both values, the
last one wins, and the remove pass keeps it; the first policy's demanded
entry is absent. -/
theorem C1_counterexample :
    managerCX.cacheStatus = true ∧ ¬ claimPolicyMapExact managerCX [] ⟨[], []⟩ := by
  refine ⟨rfl, fun h => ?_⟩
  have hd : desiredSpec (reconcileManagerStage managerCX) ⟨5, ⟨12, 16⟩⟩ ⟨100, 10⟩ :=
    (desiredSpec_iff_mem _ _ _).mpr (by decide)
  have h1 := (h ⟨5, ⟨12, 16⟩⟩ ⟨100, 10⟩).mpr hd
  have h2 : pmLookup (reconcileLocked managerCX [] ⟨[], []⟩).policyMap ⟨5, ⟨12, 16⟩⟩ =
      some ⟨200, 20⟩ := by decide
  rw [h1] at h2
  exact absurd h2 (by decide)

def epMetaC1 : EndpointMetadata := ⟨⟨"e", "ns"⟩, [5], []⟩

def policyC1 : PolicyConfig :=
  { id := ⟨"p", "ns"⟩
    endpointSelector := fun _ => true
    dstCIDRs := [⟨12, 16⟩]
    excludedCIDRs := [⟨99, 24⟩]
    destinationMinusExcluded := [⟨12, 16⟩]
    matchedEndpoints := [epMetaC1]
    gatewayConfig := ⟨⟨0, 0⟩, 0, 0, false⟩
    regenGateway := fun _ => ⟨⟨100, 32⟩, 3, 10, false⟩ }

def managerC1 : Manager :=
  { emptyManager with
      policyConfigs := [policyC1]
      epDataStore := [epMetaC1]
      eventsBitmap := eventK8sSyncDone }

theorem C1_witness :
    managerC1.cacheStatus = true ∧
    eventBitmapIsSet managerC1 [eventK8sSyncDone] = true ∧
    (pmLookup (reconcileLocked managerC1 [] ⟨[], []⟩).policyMap ⟨5, ⟨99, 24⟩⟩ =
        some ⟨100, 1⟩ ↔
      desiredSpec (reconcileManagerStage managerC1) ⟨5, ⟨99, 24⟩⟩ ⟨100, 1⟩) :=
  ⟨rfl, by decide,
    C1_policy_map_exact managerC1 [] ⟨[], []⟩ rfl (by decide) (by decide) (by decide)
      (by decide) ⟨5, ⟨99, 24⟩⟩ ⟨100, 1⟩⟩

/-! ## C3: idempotence of reconciliation -/

theorem regen_bitmapzero_fix (x : Manager) :
    regenerateGatewayConfigs { regenerateGatewayConfigs x with eventsBitmap := 0 } =
      { regenerateGatewayConfigs x with eventsBitmap := 0 } := by
  unfold regenerateGatewayConfigs
  simp only [List.map_map]
  congr 1

theorem reconcileLocked_mapOps_eq (x : Manager) (q : PolicyMap) (h2 : HostState)
    (hx : x.cacheStatus = true) :
    (reconcileLocked x q h2).mapOps =
      (addMissingEgressRules (reconcileManagerStage x) q).2 ++
      (removeUnusedEgressRules (reconcileManagerStage x)
        (addMissingEgressRules (reconcileManagerStage x) q).1).2 := by
  simp [reconcileLocked, hx]

theorem reconcileLocked_manager (m : Manager) (pm : PolicyMap) (host : HostState)
    (hsync : m.cacheStatus = true) :
    (reconcileLocked m pm host).manager =
      { reconcileManagerStage m with eventsBitmap := 0 } := by
  simp [reconcileLocked, hsync]

/-- C3 (amended): for a fixed cache state with distinct policy ids, a
well-keyed policy map, the k8s-sync bit pending and no two desired tuples
assigning different values to the same key, the reconcile brings the policy
map to the desired content, and a second reconcile on the resulting state
issues zero `Update` and zero `Delete` calls to the policy map. -/
theorem C3_second_reconcile_idle (m : Manager) (pm : PolicyMap) (host host2 : HostState)
    (hsync : m.cacheStatus = true)
    (hK8s : eventBitmapIsSet m [eventK8sSyncDone] = true)
    (hids : (m.policyConfigs.map (·.id)).Nodup)
    (hpm : (pmKeys pm).Nodup)
    (hconf : ∀ e1 ∈ desiredList (reconcileManagerStage m),
      ∀ e2 ∈ desiredList (reconcileManagerStage m), e1.1 = e2.1 → e1.2 = e2.2) :
    (reconcileLocked (reconcileLocked m pm host).manager
      (reconcileLocked m pm host).policyMap host2).mapOps = [] := by
  have hmgr := reconcileLocked_manager m pm host hsync
  have hsync' : (reconcileLocked m pm host).manager.cacheStatus = true := by
    rw [hmgr]
    obtain ⟨X, Y, hs⟩ := reconcileManagerStage_shape m
    rw [hs]
    exact hsync
  have hchar : ∀ k v, pmLookup ((reconcileLocked m pm host).policyMap) k = some v ↔
      (k, v) ∈ desiredList (reconcileManagerStage m) :=
    reconcile_policyMap_lookup m pm host hsync hK8s hids hpm hconf
  have hpmap : (reconcileLocked m pm host).policyMap =
      (applyRemoves (reconcileManagerStage m)
        ((applyAdds pm (desiredList (reconcileManagerStage m)) pm).1)
        ((applyAdds pm (desiredList (reconcileManagerStage m)) pm).1)).1 := by
    simp [reconcileLocked, hsync, addMissingEgressRules, removeUnusedEgressRules]
  have hnd' : (pmKeys ((reconcileLocked m pm host).policyMap)).Nodup := by
    rw [hpmap]
    exact applyRemoves_nodup _ _ _ (applyAdds_nodup _ _ _ hpm)
  have hidx0 : reconcileIndexUpdate ((reconcileLocked m pm host).manager) =
      (reconcileLocked m pm host).manager := by
    apply reconcileIndexUpdate_no_events
    rw [hmgr]
  have hM2 : reconcileManagerStage ((reconcileLocked m pm host).manager) =
      (reconcileLocked m pm host).manager := by
    unfold reconcileManagerStage
    rw [hidx0, hmgr]
    exact regen_bitmapzero_fix (reconcileIndexUpdate m)
  have hDm' : desiredList ((reconcileLocked m pm host).manager) =
      desiredList (reconcileManagerStage m) := by
    rw [hmgr]
    rfl
  have hM'ids : (((reconcileLocked m pm host).manager).policyConfigs.map (·.id)).Nodup := by
    rw [hmgr]
    have h0 : ((reconcileManagerStage m).policyConfigs.map (·.id)).Nodup := by
      rw [reconcileManagerStage_ids m hK8s]
      exact hids
    exact h0
  have hM'idx : idxConsistent ((reconcileLocked m pm host).manager) := by
    rw [hmgr]
    intro src pid
    exact reconcileManagerStage_idxConsistent m hK8s src pid
  have hops := reconcileLocked_mapOps_eq ((reconcileLocked m pm host).manager)
    ((reconcileLocked m pm host).policyMap) host2 hsync'
  rw [hops, hM2]
  have hABC : addMissingEgressRules ((reconcileLocked m pm host).manager)
      ((reconcileLocked m pm host).policyMap) =
      ((reconcileLocked m pm host).policyMap, []) := by
    unfold addMissingEgressRules
    apply applyAdds_skip_all
    intro e he
    rw [hDm'] at he
    rcases e with ⟨k0, v0⟩
    exact (hchar k0 v0).mpr he
  rw [hABC]
  have hrem : removeUnusedEgressRules ((reconcileLocked m pm host).manager)
      ((reconcileLocked m pm host).policyMap) =
      ((reconcileLocked m pm host).policyMap, []) := by
    unfold removeUnusedEgressRules
    apply applyRemoves_keep_all
    intro e he
    rcases e with ⟨k0, v0⟩
    have hl : pmLookup ((reconcileLocked m pm host).policyMap) k0 = some v0 :=
      pmLookup_eq_some_of_mem _ _ _ he hnd'
    have hd := (hchar k0 v0).mp hl
    rw [← hDm'] at hd
    exact (entryStillNeeded_iff _ hM'idx hM'ids k0 v0).mpr hd
  rw [hrem]
  rfl

/-- C3 fails as stated: with two policies demanding different values for the
same key, the first reconcile leaves the last writer's value in the map, and
the second reconcile's add pass finds the other policy's value missing and
issues an `Update` — the two policies' writes oscillate forever. -/
theorem C3_counterexample :
    managerCX.cacheStatus = true ∧
    (reconcileLocked (reconcileLocked managerCX [] ⟨[], []⟩).manager
      (reconcileLocked managerCX [] ⟨[], []⟩).policyMap ⟨[], []⟩).mapOps ≠ [] :=
  ⟨rfl, by decide⟩

theorem C3_witness :
    managerC1.cacheStatus = true ∧
    eventBitmapIsSet managerC1 [eventK8sSyncDone] = true ∧
    (reconcileLocked (reconcileLocked managerC1 [] ⟨[], []⟩).manager
      (reconcileLocked managerC1 [] ⟨[], []⟩).policyMap ⟨[], []⟩).mapOps = [] :=
  ⟨rfl, by decide,
    C3_second_reconcile_idle managerC1 [] ⟨[], []⟩ ⟨[], []⟩ rfl (by decide) (by decide)
      (by decide) (by decide)⟩
